import Mathlib

/-!
Verification of the white-receipt border-removal pipeline
(`white_receipt_detector.ts`, reproduced in `src/README.md`).

The shallow embedding below translates the pixel-level code directly:

* a decoded raster image is a total function `Img : ℤ → ℤ → ℕ` returning the
  packed 32-bit RGBA value of a pixel (the TypeScript source reads pixels
  through the 1-based `image.getPixelAt(x+1, y+1)`; the embedding works with
  the logical 0-based coordinates that every algorithm in the file uses);
* channel extraction `(rgba >>> k) & 0xFF` is written with division and
  remainder (`rgba / 2^k % 256`), and packing `(r << 24) | (g << 16) |
  (b << 8) | a` as a sum, which agrees with the bitwise source code because
  the four channel fields occupy disjoint bit ranges;
* JavaScript float arithmetic on brightnesses and kernel sums is modelled
  exactly with `ℚ`, and the genuinely transcendental parts of the rotation
  estimator (`Math.sqrt`, `Math.atan2`) with `ℝ`;
* `Math.round` is Mathlib's `round` (both are `⌊x + 1/2⌋`), `Math.floor` is
  `Int.floor`;
* the stack-based flood fill is written with an explicit fuel argument so
  that it evaluates by `decide`; the fuel passed by `floodFill` is proved
  sufficient (`floodFillAux_fuel_irrelevant`), so the function agrees with
  the unbounded loop in the source.
-/

namespace ReadReceipt

/-- Packed RGBA pixels: the TypeScript code stores a pixel as one 32-bit
number `0xRRGGBBAA`. -/
abbrev Pixel := ℕ

/-- A decoded raster image: 0-based pixel accessor. -/
abbrev Img := ℤ → ℤ → Pixel

/-- Red channel, `(rgba >>> 24) & 0xFF` of the source. -/
def getR (rgba : Pixel) : ℕ := rgba / 2 ^ 24 % 256

/-- Green channel, `(rgba >>> 16) & 0xFF` of the source. -/
def getG (rgba : Pixel) : ℕ := rgba / 2 ^ 16 % 256

/-- Blue channel, `(rgba >>> 8) & 0xFF` of the source. -/
def getB (rgba : Pixel) : ℕ := rgba / 2 ^ 8 % 256

/-- Alpha channel, `rgba & 0xFF` of the source. -/
def getA (rgba : Pixel) : ℕ := rgba % 256

/-- Pack four channels into one RGBA word,
`(r << 24) | (g << 16) | (b << 8) | a` of the source (the bit ranges are
disjoint, so the bitwise or is a sum). -/
def packRGBA (r g b a : ℕ) : Pixel := r * 2 ^ 24 + g * 2 ^ 16 + b * 2 ^ 8 + a

/-- `getBrightness` of the source: `(r + g + b) / 3` in float arithmetic,
modelled exactly in `ℚ`. -/
def getBrightness (rgba : Pixel) : ℚ :=
  ((getR rgba + getG rgba + getB rgba : ℕ) : ℚ) / 3

/-- `safeGetPixel` of the source: out-of-bounds reads return the transparent
black sentinel `0x00000000`. -/
def safeGetPixel (img : Img) (w h : ℤ) (x y : ℤ) : Pixel :=
  if x < 0 ∨ w ≤ x ∨ y < 0 ∨ h ≤ y then 0 else img x y

/-- `isWhiteish` of the source: brightness above 120 and color variation
(`max − min` of the channels) below 50. -/
def isWhiteish (rgba : Pixel) : Bool :=
  decide (120 < getBrightness rgba) &&
    decide (max (getR rgba) (max (getG rgba) (getB rgba)) -
      min (getR rgba) (min (getG rgba) (getB rgba)) < 50)

/-! ### The threshold post-filter (claim C8)

Source, threshold block of `detectWhiteReceiptArea`:
brightness `≥ thresholdValue` maps every color channel to 255, otherwise
to 0, and the original alpha is kept. -/

/-- Per-pixel threshold transform of the source
(`newValue = brightness >= thresholdValue ? 255 : 0`,
`newRgba = (newValue << 24) | (newValue << 16) | (newValue << 8) | a`). -/
def thresholdPixel (thresholdValue : ℚ) (rgba : Pixel) : Pixel :=
  let v : ℕ := if thresholdValue ≤ getBrightness rgba then 255 else 0
  packRGBA v v v (getA rgba)

lemma getA_lt (rgba : Pixel) : getA rgba < 256 := Nat.mod_lt _ (by norm_num)

lemma getR_packRGBA {r g b a : ℕ} (hr : r < 256) (hg : g < 256) (hb : b < 256)
    (ha : a < 256) : getR (packRGBA r g b a) = r := by
  unfold getR packRGBA; omega

lemma getG_packRGBA {r g b a : ℕ} (hr : r < 256) (hg : g < 256) (hb : b < 256)
    (ha : a < 256) : getG (packRGBA r g b a) = g := by
  unfold getG packRGBA; omega

lemma getB_packRGBA {r g b a : ℕ} (hr : r < 256) (hg : g < 256) (hb : b < 256)
    (ha : a < 256) : getB (packRGBA r g b a) = b := by
  unfold getB packRGBA; omega

lemma getA_packRGBA {r g b a : ℕ} (hr : r < 256) (hg : g < 256) (hb : b < 256)
    (ha : a < 256) : getA (packRGBA r g b a) = a := by
  unfold getA packRGBA; omega

/-- Claim C8: the threshold filter maps every pixel whose brightness
`(R+G+B)/3` is at least `thresholdValue` to all color channels 255, every
other pixel to all color channels 0, and preserves the alpha channel. -/
theorem thresholdPixel_spec (thresholdValue : ℚ) (rgba : Pixel) :
    getR (thresholdPixel thresholdValue rgba) =
        (if thresholdValue ≤ getBrightness rgba then 255 else 0) ∧
      getG (thresholdPixel thresholdValue rgba) =
        (if thresholdValue ≤ getBrightness rgba then 255 else 0) ∧
      getB (thresholdPixel thresholdValue rgba) =
        (if thresholdValue ≤ getBrightness rgba then 255 else 0) ∧
      getA (thresholdPixel thresholdValue rgba) = getA rgba := by
  have ha := getA_lt rgba
  unfold thresholdPixel
  split <;>
    exact ⟨getR_packRGBA (by norm_num) (by norm_num) (by norm_num) ha,
      getG_packRGBA (by norm_num) (by norm_num) (by norm_num) ha,
      getB_packRGBA (by norm_num) (by norm_num) (by norm_num) ha,
      getA_packRGBA (by norm_num) (by norm_num) (by norm_num) ha⟩

/-! ### The sharpening post-filter (claim C9)

Source, sharpening block of `detectWhiteReceiptArea`: a snapshot
`originalPixels` of every pixel is taken first; then for every interior
pixel (`1 ≤ x ≤ width−2`, `1 ≤ y ≤ height−2`, row-major order) the 3×3
Laplacian kernel is convolved per channel against the snapshot, blended
with the original channel by `sharpeningStrength`, clamped to [0,255],
rounded, and written back with `setPixelAt`.  Border pixels are never
written. -/

/-- The 3×3 sharpening kernel `[[0,-1,0],[-1,5,-1],[0,-1,0]]` of the source,
tabulated as a function of the offsets `ky kx ∈ {-1,0,1}`
(`sharpenKernel[ky+1][kx+1]`). -/
def sharpenKernel (ky kx : ℤ) : ℤ :=
  if ky = 0 ∧ kx = 0 then 5 else if ky = 0 ∨ kx = 0 then -1 else 0

/-- Kernel offsets `-1, 0, 1`, the ranges of the `ky`/`kx` loops. -/
def kernelOffsets : List ℤ := [-1, 0, 1]

/-- One channel of the convolution loop of the source:
`Σ_{ky,kx} sharpenKernel[ky+1][kx+1] * channel(originalPixels[y+ky][x+kx])`.
`ch` selects the channel, `orig` is the pre-filter snapshot. -/
def convChannel (ch : Pixel → ℕ) (orig : Img) (x y : ℤ) : ℚ :=
  (kernelOffsets.map fun ky =>
    (kernelOffsets.map fun kx =>
      (sharpenKernel ky kx : ℚ) * (ch (orig (x + kx) (y + ky)) : ℚ)).sum).sum

/-- The blend-and-clamp of the source:
`Math.max(0, Math.min(255, original + (new - original) * strength))`. -/
def blendChannel (origC : ℕ) (conv strength : ℚ) : ℚ :=
  max 0 (min 255 ((origC : ℚ) + (conv - (origC : ℚ)) * strength))

/-- The sharpened RGBA value written at an interior pixel: each color
channel is convolved against the snapshot, blended, clamped, rounded
(`Math.round`), and the original alpha is kept. -/
def sharpenedValue (orig : Img) (strength : ℚ) (x y : ℤ) : Pixel :=
  let rgba := orig x y
  packRGBA
    (round (blendChannel (getR rgba) (convChannel getR orig x y) strength)).toNat
    (round (blendChannel (getG rgba) (convChannel getG orig x y) strength)).toNat
    (round (blendChannel (getB rgba) (convChannel getB orig x y) strength)).toNat
    (getA rgba)

/-- Overwrite one pixel of an image (the `setPixelAt` mutation). -/
def updatePixel (img : Img) (p : ℤ × ℤ) (v : Pixel) : Img :=
  fun a b => if (a, b) = p then v else img a b

/-- The integers `1, 2, …, n` (the index range of an interior loop). -/
def innerRange (n : ℤ) : List ℤ :=
  (List.range n.toNat).map fun i => Int.ofNat i + 1

lemma mem_innerRange {n x : ℤ} : x ∈ innerRange n ↔ 1 ≤ x ∧ x ≤ n := by
  simp only [innerRange, List.mem_map, List.mem_range, Int.ofNat_eq_natCast]
  constructor
  · rintro ⟨i, hi, rfl⟩; omega
  · intro hx; exact ⟨(x - 1).toNat, by omega, by omega⟩

/-- The interior coordinates visited by the sharpening loops:
`y` from 1 to `height − 2` (outer), `x` from 1 to `width − 2` (inner). -/
def interiorCoords (w h : ℤ) : List (ℤ × ℤ) :=
  (innerRange (h - 2)).flatMap fun y => (innerRange (w - 2)).map fun x => (x, y)

/-- The whole sharpening pass: the in-place `setPixelAt` loop of the source,
modelled as a left fold of single-pixel updates.  Every read is from the
snapshot `orig`, exactly as the source reads `originalPixels`. -/
def applySharpening (orig : Img) (w h : ℤ) (strength : ℚ) : Img :=
  (interiorCoords w h).foldl
    (fun img p => updatePixel img p (sharpenedValue orig strength p.1 p.2)) orig

lemma foldl_updatePixel (val : ℤ → ℤ → Pixel) (L : List (ℤ × ℤ)) (g : Img)
    (x y : ℤ) :
    (L.foldl (fun img p => updatePixel img p (val p.1 p.2)) g) x y
      = if (x, y) ∈ L then val x y else g x y := by
  induction L generalizing g with
  | nil => simp
  | cons q T ih =>
    simp only [List.foldl_cons, ih, List.mem_cons]
    by_cases hmem : (x, y) ∈ T
    · simp [hmem]
    · by_cases heq : (x, y) = q
      · subst heq; simp [hmem, updatePixel]
      · simp [hmem, heq, updatePixel]

lemma mem_interiorCoords (w h x y : ℤ) :
    (x, y) ∈ interiorCoords w h ↔ 1 ≤ x ∧ x ≤ w - 2 ∧ 1 ≤ y ∧ y ≤ h - 2 := by
  simp only [interiorCoords, List.mem_flatMap, List.mem_map, Prod.mk.injEq]
  constructor
  · rintro ⟨b, hb, c, hc, rfl, rfl⟩
    rw [mem_innerRange] at hb hc
    omega
  · rintro ⟨hx1, hx2, hy1, hy2⟩
    exact ⟨y, mem_innerRange.2 ⟨hy1, hy2⟩, x, mem_innerRange.2 ⟨hx1, hx2⟩,
      rfl, rfl⟩

/-- Claim C9: sharpening leaves every pixel of the 1-pixel border unchanged,
and computes every interior output pixel solely from the pre-filter snapshot
(Laplacian convolution, blended by `strength` and clamped to [0,255]) —
never from already-sharpened neighbor pixels. -/
theorem applySharpening_spec (orig : Img) (w h : ℤ) (strength : ℚ) (x y : ℤ)
    (hx0 : 0 ≤ x) (hxw : x < w) (hy0 : 0 ≤ y) (hyh : y < h) :
    ((x = 0 ∨ x = w - 1 ∨ y = 0 ∨ y = h - 1) →
        applySharpening orig w h strength x y = orig x y) ∧
      (1 ≤ x → x ≤ w - 2 → 1 ≤ y → y ≤ h - 2 →
        applySharpening orig w h strength x y
          = sharpenedValue orig strength x y) := by
  unfold applySharpening
  rw [foldl_updatePixel]
  constructor
  · intro hb
    rw [if_neg]
    rw [mem_interiorCoords]
    omega
  · intro h1 h2 h3 h4
    rw [if_pos]
    rw [mem_interiorCoords]
    omega

/-- A concrete 3×3 test image for the sharpening witness. -/
def sharpenTestImg : Img := fun x y => packRGBA 100 100 100 255

/-- Witness for claim C9: on a concrete 3×3 image with strength 1, the
corner pixel (0,0) is untouched and the center pixel (1,1) equals the
snapshot-convolution value. -/
theorem applySharpening_spec_witness :
    applySharpening sharpenTestImg 3 3 1 0 0 = sharpenTestImg 0 0 ∧
      applySharpening sharpenTestImg 3 3 1 1 1
        = sharpenedValue sharpenTestImg 1 1 1 :=
  ⟨(applySharpening_spec sharpenTestImg 3 3 1 0 0 (by norm_num) (by norm_num)
      (by norm_num) (by norm_num)).1 (Or.inl rfl),
    (applySharpening_spec sharpenTestImg 3 3 1 1 1 (by norm_num) (by norm_num)
      (by norm_num) (by norm_num)).2 (by norm_num) (by norm_num) (by norm_num)
      (by norm_num)⟩

/-! ### Flood fill and the component scan (claims C3, C7, C10)

Source, `floodFill` / `floodFillRotated` and the seed loop of
`detectWhiteReceiptArea`: a stack-based 8-connected flood fill over a
boolean mask, seeded at every 5th pixel in each axis, retaining the region
with the strictly largest point count. -/

/-- Binary mask over pixel coordinates (`whiteMask[y][x]` of the source). -/
abbrev Mask := ℤ → ℤ → Bool

/-- The 8 neighbors pushed by the flood-fill loop.  The source pushes in
`dy` −1…1 (outer), `dx` −1…1 (inner) order and pops from the end of the
array; this list is that push order reversed, so its head is the next cell
popped. -/
def pushedNeighbors (x y : ℤ) : List (ℤ × ℤ) :=
  [(x + 1, y + 1), (x, y + 1), (x - 1, y + 1), (x + 1, y), (x - 1, y),
    (x + 1, y - 1), (x, y - 1), (x - 1, y - 1)]

/-- Cells of the grid that are masked and not yet visited; used only to show
that the fuel given to the flood-fill loop is sufficient. -/
def unvisitedMasked (mask : Mask) (w h : ℤ) (visited : Finset (ℤ × ℤ)) :
    Finset (ℤ × ℤ) :=
  ((Finset.Icc 0 (w - 1)) ×ˢ (Finset.Icc 0 (h - 1))).filter
    fun c => mask c.1 c.2 = true ∧ c ∉ visited

/-- One run of the stack-based flood fill of the source: pop a cell; skip it
when out of bounds, already visited, or unmasked; otherwise mark it visited,
record it, and push its 8 neighbors.  The `fuel` argument makes the
recursion structural; `floodFill` supplies provably sufficient fuel
(`floodFillAux_fuel_irrelevant`). -/
def floodFillAux (mask : Mask) (w h : ℤ) :
    ℕ → List (ℤ × ℤ) → Finset (ℤ × ℤ) → List (ℤ × ℤ) →
      List (ℤ × ℤ) × Finset (ℤ × ℤ)
  | _, [], visited, acc => (acc.reverse, visited)
  | 0, _ :: _, visited, acc => (acc.reverse, visited)
  | fuel + 1, (x, y) :: rest, visited, acc =>
    if x < 0 ∨ w ≤ x ∨ y < 0 ∨ h ≤ y ∨ (x, y) ∈ visited ∨ ¬ mask x y then
      floodFillAux mask w h fuel rest visited acc
    else
      floodFillAux mask w h fuel (pushedNeighbors x y ++ rest)
        (insert (x, y) visited) ((x, y) :: acc)

/-- Fuel that always suffices for one flood fill: every loop iteration pops
one stack entry, and at most `8·w·h` entries are ever pushed on top of the
single seed. -/
def floodFillFuel (w h : ℤ) : ℕ := 8 * (w.toNat * h.toNat) + 1

/-- `floodFill(startX, startY)` of the source, returning the collected
points (in visit order) and the updated visited set. -/
def floodFill (mask : Mask) (w h : ℤ) (sx sy : ℤ)
    (visited : Finset (ℤ × ℤ)) : List (ℤ × ℤ) × Finset (ℤ × ℤ) :=
  floodFillAux mask w h (floodFillFuel w h) [(sx, sy)] visited []

lemma mem_unvisitedMasked {mask : Mask} {w h : ℤ} {visited : Finset (ℤ × ℤ)}
    {c : ℤ × ℤ} :
    c ∈ unvisitedMasked mask w h visited ↔
      (0 ≤ c.1 ∧ c.1 ≤ w - 1) ∧ (0 ≤ c.2 ∧ c.2 ≤ h - 1) ∧
        mask c.1 c.2 = true ∧ c ∉ visited := by
  unfold unvisitedMasked
  simp [Finset.mem_filter, Finset.mem_product, and_assoc]

lemma unvisitedMasked_insert {mask : Mask} {w h : ℤ}
    {visited : Finset (ℤ × ℤ)} {c : ℤ × ℤ}
    (hc : c ∈ unvisitedMasked mask w h visited) :
    (unvisitedMasked mask w h (insert c visited)).card + 1
      = (unvisitedMasked mask w h visited).card := by
  have hset : unvisitedMasked mask w h (insert c visited)
      = (unvisitedMasked mask w h visited).erase c := by
    ext d
    simp only [mem_unvisitedMasked, Finset.mem_erase, Finset.mem_insert]
    constructor
    · rintro ⟨h1, h2, h3, h4⟩
      exact ⟨fun hdc => h4 (Or.inl hdc), h1, h2, h3, fun hd => h4 (Or.inr hd)⟩
    · rintro ⟨hne, h1, h2, h3, h4⟩
      exact ⟨h1, h2, h3, fun hd => hd.elim hne h4⟩
  rw [hset, Finset.card_erase_of_mem hc]
  have := Finset.card_pos.2 ⟨c, hc⟩
  omega

/-- With enough fuel the result of the flood-fill loop does not depend on
the exact fuel value: the loop terminates before either budget is
exhausted.  `stack.length + 8 · |unvisited masked cells|` bounds the number
of remaining iterations. -/
lemma floodFillAux_fuel_irrelevant (mask : Mask) (w h : ℤ) :
    ∀ (f g : ℕ) (stack : List (ℤ × ℤ)) (visited : Finset (ℤ × ℤ))
      (acc : List (ℤ × ℤ)),
      stack.length + 8 * (unvisitedMasked mask w h visited).card ≤ f →
      stack.length + 8 * (unvisitedMasked mask w h visited).card ≤ g →
      floodFillAux mask w h f stack visited acc
        = floodFillAux mask w h g stack visited acc := by
  intro f
  induction f using Nat.strong_induction_on with
  | _ f ih =>
    intro g stack visited acc hf hg
    cases stack with
    | nil => cases f <;> cases g <;> simp [floodFillAux]
    | cons hd rest =>
      obtain ⟨x, y⟩ := hd
      have hf1 : 1 ≤ f := by simp at hf; omega
      have hg1 : 1 ≤ g := by simp at hg; omega
      obtain ⟨f0, rfl⟩ : ∃ f0, f = f0 + 1 := ⟨f - 1, by omega⟩
      obtain ⟨g0, rfl⟩ : ∃ g0, g = g0 + 1 := ⟨g - 1, by omega⟩
      simp only [floodFillAux]
      split
      · exact ih f0 (by omega) g0 rest visited acc
          (by simp at hf ⊢; omega) (by simp at hg ⊢; omega)
      · rename_i hcond
        have hmem : (x, y) ∈ unvisitedMasked mask w h visited := by
          rw [mem_unvisitedMasked]
          push_neg at hcond
          obtain ⟨h1, h2, h3, h4, h5, h6⟩ := hcond
          exact ⟨⟨by omega, by omega⟩, ⟨by omega, by omega⟩, by simpa using h6, h5⟩
        have hcard := unvisitedMasked_insert hmem
        refine ih f0 (by omega) g0 _ _ _ ?_ ?_ <;>
          · simp only [List.length_append, List.length_cons] at hf hg ⊢
            simp only [pushedNeighbors, List.length_cons, List.length_nil]
            omega

/-- Every point collected by the flood fill (beyond those already in `acc`)
is inside the grid and masked. -/
lemma floodFillAux_points (mask : Mask) (w h : ℤ) :
    ∀ (f : ℕ) (stack : List (ℤ × ℤ)) (visited : Finset (ℤ × ℤ))
      (acc : List (ℤ × ℤ)),
      (∀ p ∈ acc, 0 ≤ p.1 ∧ p.1 < w ∧ 0 ≤ p.2 ∧ p.2 < h ∧ mask p.1 p.2) →
      ∀ p ∈ (floodFillAux mask w h f stack visited acc).1,
        0 ≤ p.1 ∧ p.1 < w ∧ 0 ≤ p.2 ∧ p.2 < h ∧ mask p.1 p.2 := by
  intro f
  induction f with
  | zero =>
    intro stack visited acc hacc p hp
    match stack with
    | [] => exact hacc p (by simpa [floodFillAux] using hp)
    | _ :: _ => exact hacc p (by simpa [floodFillAux] using hp)
  | succ f0 ih =>
    intro stack visited acc hacc p hp
    match stack with
    | [] => exact hacc p (by simpa [floodFillAux] using hp)
    | (x, y) :: rest =>
      simp only [floodFillAux] at hp
      split at hp
      · exact ih rest visited acc hacc p hp
      · rename_i hcond
        push_neg at hcond
        obtain ⟨h1, h2, h3, h4, _, h6⟩ := hcond
        refine ih _ _ _ ?_ p hp
        intro q hq
        rcases List.mem_cons.1 hq with rfl | hq2
        · exact ⟨by omega, by omega, by omega, by omega, by simpa using h6⟩
        · exact hacc q hq2

/-- Whatever is already in `acc` stays in the flood-fill result. -/
lemma floodFillAux_acc_subset (mask : Mask) (w h : ℤ) :
    ∀ (f : ℕ) (stack : List (ℤ × ℤ)) (visited : Finset (ℤ × ℤ))
      (acc : List (ℤ × ℤ)) (p : ℤ × ℤ), p ∈ acc →
      p ∈ (floodFillAux mask w h f stack visited acc).1 := by
  intro f
  induction f with
  | zero =>
    intro stack visited acc p hp
    match stack with
    | [] => simpa [floodFillAux] using hp
    | _ :: _ => simpa [floodFillAux] using hp
  | succ f0 ih =>
    intro stack visited acc p hp
    match stack with
    | [] => simpa [floodFillAux] using hp
    | (x, y) :: rest =>
      simp only [floodFillAux]
      split
      · exact ih rest visited acc p hp
      · exact ih _ _ _ p (List.mem_cons_of_mem _ hp)

/-- A seed that is in bounds, masked, and unvisited is always part of its
own flood-fill component. -/
lemma floodFill_seed_mem {mask : Mask} {w h sx sy : ℤ}
    {visited : Finset (ℤ × ℤ)}
    (hx : 0 ≤ sx) (hxw : sx < w) (hy : 0 ≤ sy) (hyh : sy < h)
    (hm : mask sx sy) (hv : (sx, sy) ∉ visited) :
    (sx, sy) ∈ (floodFill mask w h sx sy visited).1 := by
  unfold floodFill floodFillFuel
  simp only [floodFillAux]
  rw [if_neg (by push_neg; exact ⟨by omega, by omega, by omega, by omega, hv,
    by simpa using hm⟩)]
  exact floodFillAux_acc_subset mask w h _ _ _ _ _ (List.mem_cons_self _ _)

/-- Points of a flood-fill component started from an in-bounds seed are in
bounds and masked. -/
lemma floodFill_points {mask : Mask} {w h sx sy : ℤ}
    {visited : Finset (ℤ × ℤ)} :
    ∀ p ∈ (floodFill mask w h sx sy visited).1,
      0 ≤ p.1 ∧ p.1 < w ∧ 0 ≤ p.2 ∧ p.2 < h ∧ mask p.1 p.2 :=
  floodFillAux_points mask w h _ _ _ _ (by simp)

/-- Multiples of 5 below `n`: the `x += 5` / `y += 5` seed strides. -/
def gridSteps (n : ℤ) : List ℤ :=
  ((List.range n.toNat).filter fun i => i % 5 == 0).map fun i => Int.ofNat i

lemma mem_gridSteps {n x : ℤ} :
    x ∈ gridSteps n ↔ 0 ≤ x ∧ x < n ∧ x % 5 = 0 := by
  simp only [gridSteps, List.mem_map, List.mem_filter, List.mem_range,
    Int.ofNat_eq_natCast, beq_iff_eq]
  constructor
  · rintro ⟨i, ⟨hi, hmod⟩, rfl⟩
    refine ⟨by omega, by omega, ?_⟩
    omega
  · rintro ⟨h0, hn, hmod⟩
    exact ⟨x.toNat, ⟨by omega, by omega⟩, by omega⟩

/-- The seed grid of the component scan, rows top-to-bottom (`y` outer) and
columns left-to-right (`x` inner). -/
def seedList (w h : ℤ) : List (ℤ × ℤ) :=
  (gridSteps h).flatMap fun y => (gridSteps w).map fun x => (x, y)

lemma mem_seedList {w h : ℤ} {p : ℤ × ℤ} :
    p ∈ seedList w h ↔
      (0 ≤ p.1 ∧ p.1 < w ∧ p.1 % 5 = 0) ∧ (0 ≤ p.2 ∧ p.2 < h ∧ p.2 % 5 = 0) := by
  obtain ⟨x, y⟩ := p
  simp only [seedList, List.mem_flatMap, List.mem_map, Prod.mk.injEq]
  constructor
  · rintro ⟨b, hb, c, hc, rfl, rfl⟩
    exact ⟨mem_gridSteps.1 hc, mem_gridSteps.1 hb⟩
  · rintro ⟨hx, hy⟩
    exact ⟨y, mem_gridSteps.2 hy, x, mem_gridSteps.2 hx, rfl, rfl⟩

/-- State threaded through the seed loop: the shared visited array, the
current largest region, and (for specification purposes) the list of all
flood-filled components in scan order. -/
structure ScanState where
  visited : Finset (ℤ × ℤ)
  best : List (ℤ × ℤ)
  comps : List (List (ℤ × ℤ))

/-- One iteration of the seed loop of the source: on a masked, unvisited
seed, flood fill and keep the component iff it is strictly larger than the
current largest (`areaPoints.length > largestArea`). -/
def scanStep (mask : Mask) (w h : ℤ) (s : ScanState) (p : ℤ × ℤ) : ScanState :=
  if mask p.1 p.2 ∧ p ∉ s.visited then
    let r := floodFill mask w h p.1 p.2 s.visited
    { visited := r.2
      best := if s.best.length < r.1.length then r.1 else s.best
      comps := s.comps ++ [r.1] }
  else s

/-- The full seed scan (`for y … for x … floodFill` of the source). -/
def scanComponents (mask : Mask) (w h : ℤ) : ScanState :=
  (seedList w h).foldl (scanStep mask w h) ⟨∅, [], []⟩

/-- `whiteMask[y][x] = isWhiteish(safeGetPixel(x, y))` of the source. -/
def whiteMask (img : Img) (w h : ℤ) : Mask :=
  fun x y => isWhiteish (safeGetPixel img w h x y)

/-- `largestAreaPoints` of the source: the largest connected white region. -/
def largestWhiteRegion (img : Img) (w h : ℤ) : List (ℤ × ℤ) :=
  (scanComponents (whiteMask img w h) w h).best

/-- Generic preservation lemma for left folds. -/
lemma foldl_invariant {α σ : Type _} (step : σ → α → σ) (Inv : σ → Prop)
    (L : List α) (s : σ) (hstep : ∀ s a, a ∈ L → Inv s → Inv (step s a))
    (hs : Inv s) : Inv (L.foldl step s) := by
  induction L generalizing s with
  | nil => exact hs
  | cons a T ih =>
    exact ih (step s a) (fun s b hb hI => hstep s b (List.mem_cons_of_mem _ hb) hI)
      (hstep s a (List.mem_cons_self _ _) hs)

/-- If no seed is masked, the scan finds nothing. -/
lemma scanComponents_of_no_mask {mask : Mask} {w h : ℤ}
    (hmask : ∀ p ∈ seedList w h, ¬ mask p.1 p.2) :
    scanComponents mask w h = ⟨∅, [], []⟩ := by
  unfold scanComponents
  refine foldl_invariant (scanStep mask w h) (fun s => s = ⟨∅, [], []⟩) _ _
    ?_ rfl
  intro s p hp hs
  subst hs
  unfold scanStep
  rw [if_neg]
  rintro ⟨hm, -⟩
  exact hmask p hp hm

/-! ### The rotation estimator `detectRotationAngle` (claims C1, C2, C6)

Source: Sobel gradients at subsampled region points, an angle histogram in
2°-buckets weighted by gradient magnitude, conversion of the dominant
orientation to a corrective rotation, a ±90° clamp, a 75° rejection guard,
and a confidence ratio. -/

/-- JavaScript `Math.atan2(y, x)`, in radians, with values in (−π, π]. -/
noncomputable def atan2 (y x : ℝ) : ℝ :=
  if 0 < x then Real.arctan (y / x)
  else if x < 0 then
    (if 0 ≤ y then Real.arctan (y / x) + Real.pi
     else Real.arctan (y / x) - Real.pi)
  else if 0 < y then Real.pi / 2
  else if y < 0 then -(Real.pi / 2)
  else 0

/-- `RotationResult` of the source.  The angle is an exact integer in every
code path (negations and ±90/180 shifts of integer bucket keys), so it is
modelled in `ℤ`; the confidence is a ratio of gradient magnitudes. -/
structure RotationResult where
  angle : ℤ
  confidence : ℝ
  method : String

/-- One entry of the `gradients` array of the source. -/
structure Gradient where
  angle : ℝ
  magnitude : ℝ
  x : ℤ
  y : ℤ

/-- The horizontal Sobel response `gx` of the source. -/
def sobelGx (img : Img) (w h x y : ℤ) : ℚ :=
  -1 * getBrightness (safeGetPixel img w h (x - 1) (y - 1)) +
    -2 * getBrightness (safeGetPixel img w h (x - 1) y) +
    -1 * getBrightness (safeGetPixel img w h (x - 1) (y + 1)) +
    1 * getBrightness (safeGetPixel img w h (x + 1) (y - 1)) +
    2 * getBrightness (safeGetPixel img w h (x + 1) y) +
    1 * getBrightness (safeGetPixel img w h (x + 1) (y + 1))

/-- The vertical Sobel response `gy` of the source. -/
def sobelGy (img : Img) (w h x y : ℤ) : ℚ :=
  -1 * getBrightness (safeGetPixel img w h (x - 1) (y - 1)) +
    -2 * getBrightness (safeGetPixel img w h x (y - 1)) +
    -1 * getBrightness (safeGetPixel img w h (x + 1) (y - 1)) +
    1 * getBrightness (safeGetPixel img w h (x - 1) (y + 1)) +
    2 * getBrightness (safeGetPixel img w h x (y + 1)) +
    1 * getBrightness (safeGetPixel img w h (x + 1) (y + 1))

/-- The gradient computed at one sampled point: points within 2 pixels of
the image edge are skipped, and gradients with magnitude
`Math.sqrt(gx*gx + gy*gy) ≤ 10` are discarded as noise; the angle is
`Math.atan2(gy, gx) * 180 / Math.PI`.  The locals `gx`, `gy`, `magnitude`
of the source are written out. -/
noncomputable def gradAt (img : Img) (w h : ℤ) (p : ℤ × ℤ) : Option Gradient :=
  if p.1 < 2 ∨ w - 2 ≤ p.1 ∨ p.2 < 2 ∨ h - 2 ≤ p.2 then none
  else if 10 < Real.sqrt ((sobelGx img w h p.1 p.2 * sobelGx img w h p.1 p.2 +
      sobelGy img w h p.1 p.2 * sobelGy img w h p.1 p.2 : ℚ) : ℝ) then
    some ⟨atan2 ((sobelGy img w h p.1 p.2 : ℚ) : ℝ)
          ((sobelGx img w h p.1 p.2 : ℚ) : ℝ) * 180 / Real.pi,
      Real.sqrt ((sobelGx img w h p.1 p.2 * sobelGx img w h p.1 p.2 +
        sobelGy img w h p.1 p.2 * sobelGy img w h p.1 p.2 : ℚ) : ℝ),
      p.1, p.2⟩
  else none

/-- `sampleStep = Math.max(1, Math.floor(Math.sqrt(points.length) / 50))`. -/
noncomputable def sampleStep (n : ℕ) : ℕ :=
  max 1 (⌊Real.sqrt (n : ℝ) / 50⌋).toNat

/-- Indices visited by `for (i = 0; i < n; i += step)`: the multiples of
`step` below `n`. -/
def sampleIndices (step n : ℕ) : List ℕ :=
  (List.range n).filter fun i => i % step == 0

/-- The subsampled point list, at a given stride. -/
def sampledAux (step : ℕ) (pts : List (ℤ × ℤ)) : List (ℤ × ℤ) :=
  (sampleIndices step pts.length).filterMap fun i => pts[i]?

/-- The subsampled point list of the source. -/
noncomputable def sampledPoints (pts : List (ℤ × ℤ)) : List (ℤ × ℤ) :=
  sampledAux (sampleStep pts.length) pts

/-- The `gradients` array of the source. -/
noncomputable def gradientList (img : Img) (pts : List (ℤ × ℤ)) (w h : ℤ) :
    List Gradient :=
  (sampledPoints pts).filterMap (gradAt img w h)

/-- Angle normalization of the source: fold the gradient direction into the
orientation range [0°, 180°). -/
noncomputable def normalizeAngle (a : ℝ) : ℝ :=
  let a1 := if a < 0 then a + 180 else a
  if 180 ≤ a1 then a1 - 180 else a1

/-- The histogram bucket of one gradient:
`Math.round(normalizedAngle / binSize) * binSize` with `binSize = 2`. -/
noncomputable def binKey (a : ℝ) : ℤ := round (normalizeAngle a / 2) * 2

/-- The `angleBins` histogram of the source: each bucket accumulates the
gradient magnitudes (not counts) of the gradients that fall into it. -/
noncomputable def binsOf (grads : List Gradient) : ℤ → ℝ := fun k =>
  (grads.map fun g => if binKey g.angle = k then g.magnitude else 0).sum

/-- All possible bucket keys, in the ascending numeric order in which
JavaScript's `Object.entries` enumerates integer-like keys (bucket keys
always lie in 0…180, see `dominantOf_spec`). -/
def histogramKeys : List ℤ := (List.range 181).map fun i => Int.ofNat i

/-- The maximum-weight scan of the source (`weight > maxWeight` keeps the
first maximum): returns `(maxWeight, dominantAngle)`, starting from
`(0, 0)`.  Keys absent from the histogram have weight 0 and can never win
the strict comparison, so folding over all keys agrees with folding over
`Object.entries`. -/
noncomputable def dominantOf (bins : ℤ → ℝ) : ℝ × ℤ :=
  histogramKeys.foldl (fun s k => if s.1 < bins k then (bins k, k) else s) (0, 0)

/-- `totalWeight`: the sum of all bucket weights. -/
noncomputable def totalWeightOf (bins : ℤ → ℝ) : ℝ :=
  (histogramKeys.map bins).sum

/-- Conversion of the dominant orientation into a corrective rotation
(source: `rotationAngle = -dominantAngle`, with the near-wrap special
cases for buckets above 170° and below 10°). -/
def convertDominant (d : ℤ) : ℤ :=
  if 170 < d then -(d - 180) else if d < 10 then -d else -d

/-- The two sequential ±90° clamp steps of the source
(`if (rotationAngle > 45) rotationAngle -= 90;`
`if (rotationAngle < -45) rotationAngle += 90;`). -/
def clampRotation (r : ℤ) : ℤ :=
  let r1 := if 45 < r then r - 90 else r
  if r1 < -45 then r1 + 90 else r1

/-- `detectRotationAngle` of the source.  The local variables `gradients`,
`angleBins`, `maxWeight/dominantAngle`, `rotationAngle`, `totalWeight` and
`confidence` of the source are written out through the stage functions
above. -/
noncomputable def detectRotationAngle (img : Img) (pts : List (ℤ × ℤ))
    (w h : ℤ) : RotationResult :=
  if (gradientList img pts w h).length < 10 then ⟨0, 0, "insufficient_edges"⟩
  else if 75 < |clampRotation (convertDominant
      (dominantOf (binsOf (gradientList img pts w h))).2)| then
    ⟨0, 0, "large_rotation_rejected"⟩
  else
    ⟨clampRotation (convertDominant
        (dominantOf (binsOf (gradientList img pts w h))).2),
      if 0 < totalWeightOf (binsOf (gradientList img pts w h)) then
        (dominantOf (binsOf (gradientList img pts w h))).1 /
          totalWeightOf (binsOf (gradientList img pts w h))
      else 0,
      "edge_gradient_analysis"⟩

/-- Claim C2: a dominant bucket of 178° is converted to a corrective
rotation of +2° (not −88°); buckets above 170° convert to `−(angle−180)`
and buckets below 10° to `−angle`. -/
theorem convertDominant_spec :
    convertDominant 178 = 2 ∧
      (∀ d : ℤ, 170 < d → convertDominant d = -(d - 180)) ∧
      (∀ d : ℤ, d < 10 → convertDominant d = -d) := by
  refine ⟨by decide, fun d hd => ?_, fun d hd => ?_⟩
  · unfold convertDominant
    rw [if_pos hd]
  · unfold convertDominant
    rw [if_neg (by omega), if_pos hd]

/-- Witness for claim C2 at the concrete buckets 178, 172 and 4. -/
theorem convertDominant_spec_witness :
    convertDominant 178 = 2 ∧ convertDominant 172 = 8 ∧
      convertDominant 4 = -4 := by
  refine ⟨convertDominant_spec.1, ?_, ?_⟩
  · have := convertDominant_spec.2.1 172 (by norm_num)
    omega
  · have := convertDominant_spec.2.2 4 (by norm_num)
    omega

lemma mem_histogramKeys {k : ℤ} : k ∈ histogramKeys ↔ 0 ≤ k ∧ k ≤ 180 := by
  simp only [histogramKeys, List.mem_map, List.mem_range, Int.ofNat_eq_natCast]
  constructor
  · rintro ⟨i, hi, rfl⟩; omega
  · intro hk; exact ⟨k.toNat, by omega, by omega⟩

lemma binKey_even (a : ℝ) : 2 ∣ binKey a :=
  ⟨round (normalizeAngle a / 2), mul_comm _ 2⟩

lemma binsOf_ne_zero {grads : List Gradient} {k : ℤ}
    (hk : binsOf grads k ≠ 0) : ∃ g ∈ grads, binKey g.angle = k := by
  by_contra hno
  push_neg at hno
  refine hk (List.sum_eq_zero ?_)
  intro v hv
  obtain ⟨g, hg, rfl⟩ := List.mem_map.1 hv
  rw [if_neg (hno g hg)]

/-- The fold computing the dominant bucket: the running maximum is
nonnegative, and the recorded key is either the initial 0 or an even key
in 0…180 whose weight equals the running maximum. -/
lemma dominantOf_spec (bins : ℤ → ℝ) :
    0 ≤ (dominantOf bins).1 ∧ 0 ≤ (dominantOf bins).2 ∧
      (dominantOf bins).2 ≤ 180 ∧
      (((dominantOf bins).1 = 0 ∧ (dominantOf bins).2 = 0) ∨
        ((dominantOf bins).2 ∈ histogramKeys ∧
          (dominantOf bins).1 = bins (dominantOf bins).2 ∧
          0 < (dominantOf bins).1)) := by
  unfold dominantOf
  refine foldl_invariant _
    (fun s : ℝ × ℤ => 0 ≤ s.1 ∧ 0 ≤ s.2 ∧ s.2 ≤ 180 ∧
      ((s.1 = 0 ∧ s.2 = 0) ∨
        (s.2 ∈ histogramKeys ∧ s.1 = bins s.2 ∧ 0 < s.1))) _ _ ?_
    ⟨le_refl 0, le_refl 0, by norm_num, Or.inl ⟨rfl, rfl⟩⟩
  intro s k hk hs
  obtain ⟨h1, h2, h3, h4⟩ := hs
  by_cases hlt : s.1 < bins k
  · rw [if_pos hlt]
    have hk2 := mem_histogramKeys.1 hk
    exact ⟨le_of_lt (lt_of_le_of_lt h1 hlt), hk2.1, hk2.2,
      Or.inr ⟨hk, rfl, lt_of_le_of_lt h1 hlt⟩⟩
  · rw [if_neg hlt]
    exact ⟨h1, h2, h3, h4⟩

/-- The dominant bucket key is always an even integer in 0…180. -/
lemma dominant_key_even (grads : List Gradient) :
    2 ∣ (dominantOf (binsOf grads)).2 := by
  obtain ⟨-, -, -, h4⟩ := dominantOf_spec (binsOf grads)
  rcases h4 with ⟨-, hz⟩ | ⟨-, heq, hpos⟩
  · rw [hz]
    exact dvd_zero 2
  · obtain ⟨g, -, hkey⟩ := binsOf_ne_zero (k := (dominantOf (binsOf grads)).2)
      (by rw [← heq]; exact ne_of_gt hpos)
    rw [← hkey]
    exact binKey_even _

set_option maxRecDepth 8000 in
/-- Claim C1 (amended): `detectRotationAngle` returns either an angle in
[−74, 44] — which can lie outside the claimed [−45, 45] — or angle 0 with
confidence 0.  The single-pass ±90° clamp followed by the 75° rejection
guard bounds surviving angles exactly to this range. -/
theorem detectRotationAngle_range (img : Img) (pts : List (ℤ × ℤ)) (w h : ℤ) :
    (-74 ≤ (detectRotationAngle img pts w h).angle ∧
        (detectRotationAngle img pts w h).angle ≤ 44) ∨
      ((detectRotationAngle img pts w h).angle = 0 ∧
        (detectRotationAngle img pts w h).confidence = 0) := by
  unfold detectRotationAngle
  by_cases h1 : (gradientList img pts w h).length < 10
  · rw [if_pos h1]
    exact Or.inr ⟨rfl, rfl⟩
  · rw [if_neg h1]
    by_cases h2 : 75 < |clampRotation (convertDominant
        (dominantOf (binsOf (gradientList img pts w h))).2)|
    · rw [if_pos h2]
      exact Or.inr ⟨rfl, rfl⟩
    · rw [if_neg h2]
      left
      obtain ⟨-, hd0, hd180, -⟩ := dominantOf_spec
        (binsOf (gradientList img pts w h))
      have heven := dominant_key_even (gradientList img pts w h)
      have hfin : ∀ d ∈ Finset.Icc (0 : ℤ) 180, 2 ∣ d →
          ¬ 75 < |clampRotation (convertDominant d)| →
          -74 ≤ clampRotation (convertDominant d) ∧
            clampRotation (convertDominant d) ≤ 44 := by decide
      exact hfin _ (Finset.mem_Icc.2 ⟨hd0, hd180⟩) heven h2

lemma gradAt_magnitude_nonneg {img : Img} {w h : ℤ} {p : ℤ × ℤ} {g : Gradient}
    (hg : gradAt img w h p = some g) : 0 ≤ g.magnitude := by
  unfold gradAt at hg
  split at hg
  · exact absurd hg (by simp)
  · split at hg
    · obtain rfl := (Option.some_inj).1 hg
      exact Real.sqrt_nonneg _
    · exact absurd hg (by simp)

lemma gradientList_magnitude_nonneg (img : Img) (pts : List (ℤ × ℤ)) (w h : ℤ) :
    ∀ g ∈ gradientList img pts w h, 0 ≤ g.magnitude := by
  intro g hg
  obtain ⟨p, -, hsome⟩ := List.mem_filterMap.1 hg
  exact gradAt_magnitude_nonneg hsome

lemma binsOf_nonneg {grads : List Gradient}
    (hmag : ∀ g ∈ grads, 0 ≤ g.magnitude) (k : ℤ) : 0 ≤ binsOf grads k := by
  refine List.sum_nonneg ?_
  intro v hv
  obtain ⟨g, hg, rfl⟩ := List.mem_map.1 hv
  split
  · exact hmag g hg
  · exact le_refl 0

lemma totalWeightOf_nonneg {grads : List Gradient}
    (hmag : ∀ g ∈ grads, 0 ≤ g.magnitude) :
    0 ≤ totalWeightOf (binsOf grads) := by
  refine List.sum_nonneg ?_
  intro v hv
  obtain ⟨k, -, rfl⟩ := List.mem_map.1 hv
  exact binsOf_nonneg hmag k

lemma dominant_le_total {grads : List Gradient}
    (hmag : ∀ g ∈ grads, 0 ≤ g.magnitude) :
    (dominantOf (binsOf grads)).1 ≤ totalWeightOf (binsOf grads) := by
  obtain ⟨-, -, -, h4⟩ := dominantOf_spec (binsOf grads)
  rcases h4 with ⟨hz, -⟩ | ⟨hmem, heq, -⟩
  · rw [hz]
    exact totalWeightOf_nonneg hmag
  · rw [heq]
    refine List.single_le_sum ?_ _ (List.mem_map_of_mem _ hmem)
    intro v hv
    obtain ⟨k, -, rfl⟩ := List.mem_map.1 hv
    exact binsOf_nonneg hmag k

/-- Claim C6 (amended): with fewer than 10 qualifying gradients the
estimator immediately returns angle 0 / confidence 0; otherwise the
confidence is the dominant bucket weight divided by the total weight —
except on the large-rotation rejection path, which also returns angle 0 /
confidence 0.  In every case the confidence lies in [0, 1]. -/
theorem detectRotationAngle_confidence (img : Img) (pts : List (ℤ × ℤ))
    (w h : ℤ) :
    ((gradientList img pts w h).length < 10 →
        detectRotationAngle img pts w h = ⟨0, 0, "insufficient_edges"⟩) ∧
      0 ≤ (detectRotationAngle img pts w h).confidence ∧
      (detectRotationAngle img pts w h).confidence ≤ 1 ∧
      ((detectRotationAngle img pts w h).confidence
          = (dominantOf (binsOf (gradientList img pts w h))).1 /
            totalWeightOf (binsOf (gradientList img pts w h)) ∨
        ((detectRotationAngle img pts w h).angle = 0 ∧
          (detectRotationAngle img pts w h).confidence = 0)) := by
  have hmag := gradientList_magnitude_nonneg img pts w h
  have htnn := totalWeightOf_nonneg hmag
  have hdnn := (dominantOf_spec (binsOf (gradientList img pts w h))).1
  have hdt := dominant_le_total hmag
  unfold detectRotationAngle
  by_cases h1 : (gradientList img pts w h).length < 10
  · rw [if_pos h1]
    exact ⟨fun _ => rfl, le_refl 0, by norm_num, Or.inr ⟨rfl, rfl⟩⟩
  · rw [if_neg h1]
    by_cases h2 : 75 < |clampRotation (convertDominant
        (dominantOf (binsOf (gradientList img pts w h))).2)|
    · rw [if_pos h2]
      exact ⟨fun hc => absurd hc h1, le_refl 0, by norm_num, Or.inr ⟨rfl, rfl⟩⟩
    · rw [if_neg h2]
      refine ⟨fun hc => absurd hc h1, ?_, ?_, Or.inl ?_⟩
      all_goals dsimp only
      · split
        · exact div_nonneg hdnn htnn
        · exact le_refl 0
      · split
        · rename_i htpos
          exact (div_le_one htpos).2 hdt
        · norm_num
      · split
        · rfl
        · rename_i htnpos
          have h0 : totalWeightOf (binsOf (gradientList img pts w h)) = 0 :=
            le_antisymm (not_lt.1 htnpos) htnn
          rw [h0, div_zero]

/-- Gray pixel helper: `packGray v` packs the gray level `v` on all three
color channels with full alpha. -/
def packGray (v : ℕ) : Pixel := packRGBA v v v 255

/-- A uniform light-gray image (all channels 200): no Sobel response
anywhere, so the estimator reports `insufficient_edges`. -/
def uniformImg : Img := fun _ _ => packGray 200

/-! ### Concrete gradient angles for the C1 / C6 counterexamples -/

lemma arctan_fifth_pos : 0 < Real.arctan (1 / 5) := by
  have := Real.arctan_strictMono (show (0 : ℝ) < 1 / 5 by norm_num)
  rwa [Real.arctan_zero] at this

lemma arctan_fifth_lt : Real.arctan (1 / 5) < 13 * Real.pi / 180 := by
  have h1 : Real.arctan (1 / 5) < 1 / 5 := by
    have hpos : 0 < Real.arctan (1 / 5) := arctan_fifth_pos
    have hlt := Real.lt_tan hpos (Real.arctan_lt_pi_div_two _)
    rw [Real.tan_arctan] at hlt
    exact hlt
  have hpi := Real.pi_gt_three
  linarith

lemma arctan_fifth_gt : 11 * Real.pi / 180 < Real.arctan (1 / 5) := by
  have hpi_pos := Real.pi_pos
  have hpi_lt := Real.pi_lt_d2
  set c : ℝ := 11 * Real.pi / 180 with hc
  have hc_pos : 0 < c := by positivity
  have hc_lt : c < 0.1925 := by rw [hc]; nlinarith
  have hc_half : c < Real.pi / 2 := by rw [hc]; nlinarith
  have hsin : Real.sin c < c := Real.sin_lt hc_pos
  have hsin_nn : 0 ≤ Real.sin c :=
    Real.sin_nonneg_of_nonneg_of_le_pi hc_pos.le (by nlinarith)
  have hcos_lb : (0.98 : ℝ) < Real.cos c := by
    have := Real.one_sub_sq_div_two_le_cos (x := c)
    nlinarith
  have htan : Real.tan c < 1 / 5 := by
    rw [Real.tan_eq_sin_div_cos]
    rw [div_lt_iff (by linarith)]
    nlinarith
  have := Real.arctan_strictMono htan
  rwa [Real.arctan_tan (by linarith) hc_half] at this

/-- `Math.atan2(8, -8)` is exactly 135° (in radians, 3π/4). -/
lemma atan2_eight_neg_eight : atan2 8 (-8) = 3 * Real.pi / 4 := by
  unfold atan2
  rw [if_neg (by norm_num), if_pos (by norm_num), if_pos (by norm_num)]
  rw [show (8 : ℝ) / (-8) = -1 by norm_num, Real.arctan_neg, Real.arctan_one]
  ring

/-- `Math.atan2(-8, 40)` is `−arctan(1/5)` (about −11.31°). -/
lemma atan2_neg_eight_forty : atan2 (-8) 40 = -Real.arctan (1 / 5) := by
  unfold atan2
  rw [if_pos (by norm_num)]
  rw [show (-8 : ℝ) / 40 = -(1 / 5) by norm_num, Real.arctan_neg]

lemma normalizeAngle_of_neg {a : ℝ} (h : a < 0) (h2 : -180 ≤ a) :
    normalizeAngle a = a + 180 := by
  unfold normalizeAngle
  rw [if_pos h, if_neg (show ¬ (180 : ℝ) ≤ a + 180 by linarith)]

lemma normalizeAngle_of_nonneg {a : ℝ} (h : 0 ≤ a) (h2 : a < 180) :
    normalizeAngle a = a := by
  unfold normalizeAngle
  rw [if_neg (not_lt.2 h), if_neg (not_le.2 h2)]

/-- The 135° gradient of the first ramp falls into bucket 136
(`Math.round(67.5) = 68`). -/
lemma binKey_rampA : binKey (atan2 8 (-8) * 180 / Real.pi) = 136 := by
  have h1 : atan2 8 (-8) * 180 / Real.pi = 135 := by
    rw [atan2_eight_neg_eight]
    field_simp
    ring
  rw [h1]
  unfold binKey
  rw [normalizeAngle_of_nonneg (by norm_num) (by norm_num), round_eq]
  have h2 : ⌊(135 : ℝ) / 2 + 1 / 2⌋ = 68 := by
    rw [Int.floor_eq_iff]
    constructor <;> norm_num
  rw [h2]
  norm_num

/-- The `−arctan(1/5)` gradient of the second ramp normalizes into
(167°, 169°) and falls into bucket 168. -/
lemma binKey_rampB : binKey (atan2 (-8) 40 * 180 / Real.pi) = 168 := by
  have hpi := Real.pi_pos
  have hq11 : 11 * Real.pi < Real.arctan (1 / 5) * 180 := by
    have := arctan_fifth_gt
    nlinarith
  have hq13 : Real.arctan (1 / 5) * 180 < 13 * Real.pi := by
    have := arctan_fifth_lt
    nlinarith
  have hq11d : 11 < Real.arctan (1 / 5) * 180 / Real.pi :=
    (lt_div_iff hpi).2 (by nlinarith)
  have hq13d : Real.arctan (1 / 5) * 180 / Real.pi < 13 :=
    (div_lt_iff hpi).2 (by nlinarith)
  have hangle : atan2 (-8) 40 * 180 / Real.pi
      = -(Real.arctan (1 / 5) * 180 / Real.pi) := by
    rw [atan2_neg_eight_forty]
    ring
  rw [hangle]
  unfold binKey
  rw [normalizeAngle_of_neg (by linarith) (by linarith), round_eq]
  have h2 : ⌊(-(Real.arctan (1 / 5) * 180 / Real.pi) + 180) / 2 + 1 / 2⌋
      = 84 := by
    rw [Int.floor_eq_iff]
    constructor
    · push_cast
      linarith
    · push_cast
      linarith
  rw [h2]
  norm_num

lemma getBrightness_packGray {v : ℕ} (hv : v < 256) :
    getBrightness (packGray v) = (v : ℚ) := by
  unfold getBrightness packGray
  rw [getR_packRGBA hv hv hv (by norm_num), getG_packRGBA hv hv hv (by norm_num),
    getB_packRGBA hv hv hv (by norm_num)]
  push_cast
  ring

/-- A 9×9 grayscale ramp whose brightness is `128 + y − x`: every interior
Sobel response is `(gx, gy) = (−8, 8)`, an edge at exactly 135°. -/
def rampA : Img := fun x y => packGray (128 + y - x).toNat

/-- A 9×9 grayscale ramp whose brightness is `120 + 5·x − y`: every interior
Sobel response is `(gx, gy) = (40, −8)`, an edge at `−arctan(1/5) ≈
−11.3°`, which normalizes into bucket 168. -/
def rampB : Img := fun x y => packGray (120 + 5 * x - y).toNat

/-- Ten interior points of the 9×9 ramps, all at least 2 pixels from every
edge. -/
def ptsTen : List (ℤ × ℤ) :=
  [(2, 2), (3, 2), (4, 2), (5, 2), (6, 2),
   (2, 3), (3, 3), (4, 3), (5, 3), (6, 3)]

lemma rampA_brightness {x y : ℤ} (hx : 0 ≤ x) (hxw : x < 9) (hy : 0 ≤ y)
    (hyh : y < 9) :
    getBrightness (safeGetPixel rampA 9 9 x y) = ((128 + y - x : ℤ) : ℚ) := by
  unfold safeGetPixel
  rw [if_neg (by omega)]
  unfold rampA
  rw [getBrightness_packGray (by omega)]
  have h := Int.toNat_of_nonneg (show (0 : ℤ) ≤ 128 + y - x by omega)
  exact_mod_cast congrArg (fun z : ℤ => (z : ℚ)) h

lemma rampB_brightness {x y : ℤ} (hx : 0 ≤ x) (hxw : x < 9) (hy : 0 ≤ y)
    (hyh : y < 9) :
    getBrightness (safeGetPixel rampB 9 9 x y) = ((120 + 5 * x - y : ℤ) : ℚ) := by
  unfold safeGetPixel
  rw [if_neg (by omega)]
  unfold rampB
  rw [getBrightness_packGray (by omega)]
  have h := Int.toNat_of_nonneg (show (0 : ℤ) ≤ 120 + 5 * x - y by omega)
  exact_mod_cast congrArg (fun z : ℤ => (z : ℚ)) h

lemma rampA_sobel {x y : ℤ} (hx : 1 ≤ x) (hxw : x ≤ 7) (hy : 1 ≤ y)
    (hyh : y ≤ 7) :
    sobelGx rampA 9 9 x y = -8 ∧ sobelGy rampA 9 9 x y = 8 := by
  have hB : ∀ a b : ℤ, 0 ≤ a → a < 9 → 0 ≤ b → b < 9 →
      getBrightness (safeGetPixel rampA 9 9 a b) = ((128 + b - a : ℤ) : ℚ) :=
    fun a b h1 h2 h3 h4 => rampA_brightness h1 h2 h3 h4
  constructor
  · unfold sobelGx
    rw [hB (x - 1) (y - 1) (by omega) (by omega) (by omega) (by omega),
      hB (x - 1) y (by omega) (by omega) (by omega) (by omega),
      hB (x - 1) (y + 1) (by omega) (by omega) (by omega) (by omega),
      hB (x + 1) (y - 1) (by omega) (by omega) (by omega) (by omega),
      hB (x + 1) y (by omega) (by omega) (by omega) (by omega),
      hB (x + 1) (y + 1) (by omega) (by omega) (by omega) (by omega)]
    push_cast
    ring
  · unfold sobelGy
    rw [hB (x - 1) (y - 1) (by omega) (by omega) (by omega) (by omega),
      hB x (y - 1) (by omega) (by omega) (by omega) (by omega),
      hB (x + 1) (y - 1) (by omega) (by omega) (by omega) (by omega),
      hB (x - 1) (y + 1) (by omega) (by omega) (by omega) (by omega),
      hB x (y + 1) (by omega) (by omega) (by omega) (by omega),
      hB (x + 1) (y + 1) (by omega) (by omega) (by omega) (by omega)]
    push_cast
    ring

lemma rampB_sobel {x y : ℤ} (hx : 1 ≤ x) (hxw : x ≤ 7) (hy : 1 ≤ y)
    (hyh : y ≤ 7) :
    sobelGx rampB 9 9 x y = 40 ∧ sobelGy rampB 9 9 x y = -8 := by
  have hB : ∀ a b : ℤ, 0 ≤ a → a < 9 → 0 ≤ b → b < 9 →
      getBrightness (safeGetPixel rampB 9 9 a b) = ((120 + 5 * a - b : ℤ) : ℚ) :=
    fun a b h1 h2 h3 h4 => rampB_brightness h1 h2 h3 h4
  constructor
  · unfold sobelGx
    rw [hB (x - 1) (y - 1) (by omega) (by omega) (by omega) (by omega),
      hB (x - 1) y (by omega) (by omega) (by omega) (by omega),
      hB (x - 1) (y + 1) (by omega) (by omega) (by omega) (by omega),
      hB (x + 1) (y - 1) (by omega) (by omega) (by omega) (by omega),
      hB (x + 1) y (by omega) (by omega) (by omega) (by omega),
      hB (x + 1) (y + 1) (by omega) (by omega) (by omega) (by omega)]
    push_cast
    ring
  · unfold sobelGy
    rw [hB (x - 1) (y - 1) (by omega) (by omega) (by omega) (by omega),
      hB x (y - 1) (by omega) (by omega) (by omega) (by omega),
      hB (x + 1) (y - 1) (by omega) (by omega) (by omega) (by omega),
      hB (x - 1) (y + 1) (by omega) (by omega) (by omega) (by omega),
      hB x (y + 1) (by omega) (by omega) (by omega) (by omega),
      hB (x + 1) (y + 1) (by omega) (by omega) (by omega) (by omega)]
    push_cast
    ring

lemma gradAt_rampA {x y : ℤ} (hx : 2 ≤ x) (hxw : x ≤ 6) (hy : 2 ≤ y)
    (hyh : y ≤ 6) :
    gradAt rampA 9 9 (x, y)
      = some ⟨atan2 8 (-8) * 180 / Real.pi, Real.sqrt 128, x, y⟩ := by
  obtain ⟨hgx, hgy⟩ := rampA_sobel (x := x) (y := y) (by omega) (by omega)
    (by omega) (by omega)
  unfold gradAt
  dsimp only
  rw [if_neg (show ¬ (x < 2 ∨ 9 - 2 ≤ x ∨ y < 2 ∨ 9 - 2 ≤ y) by omega)]
  rw [hgx, hgy]
  rw [show (((-8 : ℚ) * (-8 : ℚ) + (8 : ℚ) * (8 : ℚ) : ℚ) : ℝ) = 128 by
    norm_num]
  rw [if_pos (show (10 : ℝ) < Real.sqrt 128 from
    (Real.lt_sqrt (by norm_num)).2 (by norm_num))]
  norm_num

lemma gradAt_rampB {x y : ℤ} (hx : 2 ≤ x) (hxw : x ≤ 6) (hy : 2 ≤ y)
    (hyh : y ≤ 6) :
    gradAt rampB 9 9 (x, y)
      = some ⟨atan2 (-8) 40 * 180 / Real.pi, Real.sqrt 1664, x, y⟩ := by
  obtain ⟨hgx, hgy⟩ := rampB_sobel (x := x) (y := y) (by omega) (by omega)
    (by omega) (by omega)
  unfold gradAt
  dsimp only
  rw [if_neg (show ¬ (x < 2 ∨ 9 - 2 ≤ x ∨ y < 2 ∨ 9 - 2 ≤ y) by omega)]
  rw [hgx, hgy]
  rw [show (((40 : ℚ) * (40 : ℚ) + (-8 : ℚ) * (-8 : ℚ) : ℚ) : ℝ) = 1664 by
    norm_num]
  rw [if_pos (show (10 : ℝ) < Real.sqrt 1664 from
    (Real.lt_sqrt (by norm_num)).2 (by norm_num))]
  norm_num

lemma sampleStep_ten : sampleStep 10 = 1 := by
  unfold sampleStep
  have hs : Real.sqrt ((10 : ℕ) : ℝ) < 50 := by
    rw [show ((10 : ℕ) : ℝ) = 10 by norm_num]
    have h1 : Real.sqrt 10 < Real.sqrt 2500 :=
      Real.sqrt_lt_sqrt (by norm_num) (by norm_num)
    rwa [show (2500 : ℝ) = 50 ^ 2 by norm_num,
      Real.sqrt_sq (by norm_num : (0 : ℝ) ≤ 50)] at h1
  have h : ⌊Real.sqrt ((10 : ℕ) : ℝ) / 50⌋ = 0 := by
    rw [Int.floor_eq_iff]
    refine ⟨by push_cast; positivity, ?_⟩
    push_cast
    rw [show (0 : ℝ) + 1 = 1 by norm_num,
      div_lt_one (by norm_num : (0 : ℝ) < 50)]
    push_cast at hs
    linarith
  rw [h]
  rfl

lemma sampledPoints_ptsTen : sampledPoints ptsTen = ptsTen := by
  unfold sampledPoints
  rw [show ptsTen.length = 10 from rfl, sampleStep_ten]
  decide

lemma filterMap_eq_map_of_some {α β : Type _} {f : α → Option β} {g : α → β}
    {l : List α} (h : ∀ a ∈ l, f a = some (g a)) : l.filterMap f = l.map g := by
  induction l with
  | nil => rfl
  | cons a T ih =>
    rw [List.filterMap_cons_some (h a (List.mem_cons_self _ _)), List.map_cons,
      ih fun b hb => h b (List.mem_cons_of_mem _ hb)]

lemma gradientList_rampA :
    gradientList rampA ptsTen 9 9
      = ptsTen.map fun p =>
          ⟨atan2 8 (-8) * 180 / Real.pi, Real.sqrt 128, p.1, p.2⟩ := by
  unfold gradientList
  rw [sampledPoints_ptsTen]
  refine filterMap_eq_map_of_some ?_
  intro p hp
  fin_cases hp <;>
    exact gradAt_rampA (by norm_num) (by norm_num) (by norm_num) (by norm_num)

lemma gradientList_rampB :
    gradientList rampB ptsTen 9 9
      = ptsTen.map fun p =>
          ⟨atan2 (-8) 40 * 180 / Real.pi, Real.sqrt 1664, p.1, p.2⟩ := by
  unfold gradientList
  rw [sampledPoints_ptsTen]
  refine filterMap_eq_map_of_some ?_
  intro p hp
  fin_cases hp <;>
    exact gradAt_rampB (by norm_num) (by norm_num) (by norm_num) (by norm_num)

lemma binsOf_cons (g : Gradient) (T : List Gradient) (k : ℤ) :
    binsOf (g :: T) k
      = (if binKey g.angle = k then g.magnitude else 0) + binsOf T k := by
  unfold binsOf
  rw [List.map_cons, List.sum_cons]

lemma binsOf_map_const_angle (L : List (ℤ × ℤ)) (ang mag : ℝ) (k : ℤ) :
    binsOf (L.map fun p => ⟨ang, mag, p.1, p.2⟩) k
      = if binKey ang = k then (L.length : ℝ) * mag else 0 := by
  induction L with
  | nil =>
    unfold binsOf
    simp
  | cons p T ih =>
    rw [List.map_cons, binsOf_cons, ih]
    dsimp only
    split
    · rw [List.length_cons]
      push_cast
      ring
    · ring

lemma foldl_pick_le (bins : ℤ → ℝ) :
    ∀ (L : List ℤ) (s : ℝ × ℤ), (∀ k ∈ L, bins k ≤ s.1) →
      L.foldl (fun s k => if s.1 < bins k then (bins k, k) else s) s = s := by
  intro L
  induction L with
  | nil => intro s _; rfl
  | cons c T ih =>
    intro s hle
    rw [List.foldl_cons,
      if_neg (not_lt.2 (hle c (List.mem_cons_self _ _)))]
    exact ih s fun k hk => hle k (List.mem_cons_of_mem _ hk)

/-- The dominant-bucket fold on a single-spike histogram returns the spike. -/
lemma dominantOf_single {k0 : ℤ} {wgt : ℝ} (bins : ℤ → ℝ)
    (hbins : ∀ k, bins k = if k = k0 then wgt else 0)
    (hk : k0 ∈ histogramKeys) (hw : 0 < wgt) :
    dominantOf bins = (wgt, k0) := by
  unfold dominantOf
  have main : ∀ L : List ℤ, k0 ∈ L →
      L.foldl (fun s k => if s.1 < bins k then (bins k, k) else s)
        ((0 : ℝ), (0 : ℤ)) = (wgt, k0) := by
    intro L
    induction L with
    | nil => intro hmem; cases hmem
    | cons c T ih =>
      intro hmem
      rw [List.foldl_cons]
      by_cases hc : c = k0
      · subst hc
        have hbc : bins c = wgt := by rw [hbins, if_pos rfl]
        rw [if_pos (show ((0 : ℝ), (0 : ℤ)).1 < bins c by rw [hbc]; exact hw),
          hbc]
        refine foldl_pick_le bins T (wgt, c) ?_
        intro k hk2
        rw [hbins k]
        split
        · exact le_refl wgt
        · exact hw.le
      · have hbc : bins c = 0 := by rw [hbins, if_neg hc]
        rw [if_neg (show ¬ ((0 : ℝ), (0 : ℤ)).1 < bins c by
          rw [hbc]; exact lt_irrefl 0)]
        exact ih ((List.mem_cons.1 hmem).resolve_left fun he => hc he.symm)
  exact main _ hk

lemma histogramKeys_nodup : histogramKeys.Nodup := by
  unfold histogramKeys
  exact (List.nodup_range 181).map fun a b hab => Int.ofNat.inj hab

/-- The total weight of a single-spike histogram is the spike weight. -/
lemma totalWeightOf_single {k0 : ℤ} {wgt : ℝ} (bins : ℤ → ℝ)
    (hbins : ∀ k, bins k = if k = k0 then wgt else 0)
    (hk : k0 ∈ histogramKeys) : totalWeightOf bins = wgt := by
  unfold totalWeightOf
  have main : ∀ L : List ℤ, L.Nodup → k0 ∈ L → (L.map bins).sum = wgt := by
    intro L
    induction L with
    | nil => intro _ hmem; cases hmem
    | cons c T ih =>
      intro hnd hmem
      rw [List.map_cons, List.sum_cons]
      by_cases hc : c = k0
      · subst hc
        have hT : c ∉ T := (List.nodup_cons.1 hnd).1
        have hz : (T.map bins).sum = 0 := by
          refine List.sum_eq_zero ?_
          intro v hv
          obtain ⟨k, hkT, rfl⟩ := List.mem_map.1 hv
          rw [hbins, if_neg fun he => hT (by rw [← he]; exact hkT)]
        rw [hbins, if_pos rfl, hz, add_zero]
      · have hmem2 : k0 ∈ T :=
          (List.mem_cons.1 hmem).resolve_left fun he => hc he.symm
        rw [hbins c, if_neg hc, ih (List.nodup_cons.1 hnd).2 hmem2, zero_add]
  exact main _ histogramKeys_nodup hk

lemma binsOf_rampA (k : ℤ) :
    binsOf (gradientList rampA ptsTen 9 9) k
      = if k = 136 then (10 : ℝ) * Real.sqrt 128 else 0 := by
  rw [gradientList_rampA, binsOf_map_const_angle,
    show ptsTen.length = 10 from rfl]
  by_cases hk : k = 136
  · subst hk
    rw [if_pos binKey_rampA, if_pos rfl]
    norm_num
  · rw [if_neg fun he => hk (by rw [← he]; exact binKey_rampA), if_neg hk]

lemma rampA_weight_pos : (0 : ℝ) < 10 * Real.sqrt 128 :=
  mul_pos (by norm_num) (Real.sqrt_pos.2 (by norm_num))

/-- On the first ramp the estimator returns angle −46° with confidence 1:
the dominant bucket 136 converts to −136, a single +90 clamp leaves −46,
and |−46| does not trip the 75° guard. -/
lemma detectRotationAngle_rampA :
    detectRotationAngle rampA ptsTen 9 9
      = ⟨-46, 1, "edge_gradient_analysis"⟩ := by
  have hlen : (gradientList rampA ptsTen 9 9).length = 10 := by
    rw [gradientList_rampA, List.length_map]
    rfl
  have hdom : dominantOf (binsOf (gradientList rampA ptsTen 9 9))
      = (10 * Real.sqrt 128, 136) :=
    dominantOf_single _ binsOf_rampA (mem_histogramKeys.2 (by norm_num))
      rampA_weight_pos
  have htot : totalWeightOf (binsOf (gradientList rampA ptsTen 9 9))
      = 10 * Real.sqrt 128 :=
    totalWeightOf_single _ binsOf_rampA (mem_histogramKeys.2 (by norm_num))
  have hrot : clampRotation (convertDominant
      (dominantOf (binsOf (gradientList rampA ptsTen 9 9))).2) = -46 := by
    rw [hdom]
    decide
  unfold detectRotationAngle
  rw [hlen, if_neg (by norm_num), hrot, if_neg (by decide), hdom, htot,
    if_pos rampA_weight_pos]
  dsimp only
  rw [div_self (ne_of_gt rampA_weight_pos)]

set_option maxRecDepth 2000 in
/-- Counterexample to claim C1 as stated: on the 9×9 diagonal ramp `rampA`
with the ten region points `ptsTen`, `detectRotationAngle` returns the
nonzero angle −46° (outside [−45, 45]) with confidence 1, refuting
"always an angle in [−45, 45], or angle = 0 with confidence = 0". -/
theorem detectRotationAngle_range_counterexample :
    (detectRotationAngle rampA ptsTen 9 9).angle = -46 ∧
      (detectRotationAngle rampA ptsTen 9 9).confidence = 1 ∧
      ¬ (((-45 : ℤ) ≤ (detectRotationAngle rampA ptsTen 9 9).angle ∧
            (detectRotationAngle rampA ptsTen 9 9).angle ≤ 45) ∨
          ((detectRotationAngle rampA ptsTen 9 9).angle = 0 ∧
            (detectRotationAngle rampA ptsTen 9 9).confidence = 0)) := by
  rw [detectRotationAngle_rampA]
  refine ⟨rfl, rfl, ?_⟩
  rintro (⟨h1, -⟩ | ⟨h1, -⟩) <;> norm_num at h1

lemma binsOf_rampB (k : ℤ) :
    binsOf (gradientList rampB ptsTen 9 9) k
      = if k = 168 then (10 : ℝ) * Real.sqrt 1664 else 0 := by
  rw [gradientList_rampB, binsOf_map_const_angle,
    show ptsTen.length = 10 from rfl]
  by_cases hk : k = 168
  · subst hk
    rw [if_pos binKey_rampB, if_pos rfl]
    norm_num
  · rw [if_neg fun he => hk (by rw [← he]; exact binKey_rampB), if_neg hk]

lemma rampB_weight_pos : (0 : ℝ) < 10 * Real.sqrt 1664 :=
  mul_pos (by norm_num) (Real.sqrt_pos.2 (by norm_num))

/-- On the second ramp the dominant bucket 168 converts to −168, the clamp
leaves −78, and the 75° guard rejects: the estimator returns angle 0 with
confidence 0 even though 10 qualifying gradients were found. -/
lemma detectRotationAngle_rampB :
    detectRotationAngle rampB ptsTen 9 9
      = ⟨0, 0, "large_rotation_rejected"⟩ := by
  have hlen : (gradientList rampB ptsTen 9 9).length = 10 := by
    rw [gradientList_rampB, List.length_map]
    rfl
  have hdom : dominantOf (binsOf (gradientList rampB ptsTen 9 9))
      = (10 * Real.sqrt 1664, 168) :=
    dominantOf_single _ binsOf_rampB (mem_histogramKeys.2 (by norm_num))
      rampB_weight_pos
  have hrot : clampRotation (convertDominant
      (dominantOf (binsOf (gradientList rampB ptsTen 9 9))).2) = -78 := by
    rw [hdom]
    decide
  unfold detectRotationAngle
  rw [hlen, if_neg (by norm_num), hrot, if_pos (by decide)]

set_option maxRecDepth 2000 in
/-- Counterexample to claim C6 as stated: on the 9×9 ramp `rampB` ten
qualifying gradients are found (so the "insufficient gradients" case does
not apply), yet the returned confidence is 0 and not the dominant-weight /
total-weight ratio (which equals 1): the large-rotation rejection path
breaks the claimed "otherwise confidence = dominant/total". -/
theorem detectRotationAngle_confidence_counterexample :
    ¬ ((gradientList rampB ptsTen 9 9).length < 10) ∧
      detectRotationAngle rampB ptsTen 9 9
        = ⟨0, 0, "large_rotation_rejected"⟩ ∧
      (dominantOf (binsOf (gradientList rampB ptsTen 9 9))).1 /
          totalWeightOf (binsOf (gradientList rampB ptsTen 9 9)) = 1 ∧
      ¬ ((detectRotationAngle rampB ptsTen 9 9).confidence
          = (dominantOf (binsOf (gradientList rampB ptsTen 9 9))).1 /
            totalWeightOf (binsOf (gradientList rampB ptsTen 9 9))) := by
  have hlen : (gradientList rampB ptsTen 9 9).length = 10 := by
    rw [gradientList_rampB, List.length_map]
    rfl
  have hdom : dominantOf (binsOf (gradientList rampB ptsTen 9 9))
      = (10 * Real.sqrt 1664, 168) :=
    dominantOf_single _ binsOf_rampB (mem_histogramKeys.2 (by norm_num))
      rampB_weight_pos
  have htot : totalWeightOf (binsOf (gradientList rampB ptsTen 9 9))
      = 10 * Real.sqrt 1664 :=
    totalWeightOf_single _ binsOf_rampB (mem_histogramKeys.2 (by norm_num))
  have hratio : (dominantOf (binsOf (gradientList rampB ptsTen 9 9))).1 /
      totalWeightOf (binsOf (gradientList rampB ptsTen 9 9)) = 1 := by
    rw [hdom, htot]
    dsimp only
    exact div_self (ne_of_gt rampB_weight_pos)
  refine ⟨by rw [hlen]; norm_num, detectRotationAngle_rampB, hratio, ?_⟩
  rw [detectRotationAngle_rampB, hratio]
  norm_num

lemma gradientList_nil (img : Img) (w h : ℤ) : gradientList img [] w h = [] := by
  unfold gradientList sampledPoints sampledAux sampleIndices
  simp

/-- Witness for claim C6 (amended) at a concrete input: with an empty
region point list there are 0 qualifying gradients, and the estimator
returns the immediate `insufficient_edges` result. -/
theorem detectRotationAngle_confidence_witness :
    (gradientList uniformImg [] 5 5).length < 10 ∧
      detectRotationAngle uniformImg [] 5 5 = ⟨0, 0, "insufficient_edges"⟩ := by
  have hlen : (gradientList uniformImg [] 5 5).length < 10 := by
    rw [gradientList_nil]
    norm_num
  exact ⟨hlen, (detectRotationAngle_confidence uniformImg [] 5 5).1 hlen⟩

/-! ### Content-bounds refinement (claim C5)

Source, "Finding content boundaries for aggressive cropping" block of
`detectWhiteReceiptArea`: first the raw bounding box of the white region,
then a second pass that marks a region point as having content when any
in-bounds pixel of its 3×3 neighborhood has brightness below 200, and a
bounding box restricted to those points that supersedes the raw one when
the `contentMinX ≤ contentMaxX && contentMinY ≤ contentMaxY` test passes. -/

/-- Axis-aligned bounding box `(minX, maxX, minY, maxY)`. -/
structure BBox where
  minX : ℤ
  maxX : ℤ
  minY : ℤ
  maxY : ℤ

/-- One min/max update of a bounding-box scan. -/
def bboxStep (b : BBox) (p : ℤ × ℤ) : BBox :=
  ⟨min b.minX p.1, max b.maxX p.1, min b.minY p.2, max b.maxY p.2⟩

/-- The raw bounding box of the source: a min/max fold over the region
points starting from `(currentWidth, 0, currentHeight, 0)`. -/
def rawBBox (cw ch : ℤ) (pts : List (ℤ × ℤ)) : BBox :=
  pts.foldl bboxStep ⟨cw, 0, ch, 0⟩

/-- The content test of the source: some pixel of the 3×3 neighborhood of
`(x, y)`, restricted to image bounds, has brightness below 200 (`dy` outer
loop, `dx` inner loop, early exit — equivalent to `List.any`).  The source
reads the current image directly (`getPixelAt`), guarded by the bounds
check. -/
def hasContentAt (img : Img) (cw ch : ℤ) (x y : ℤ) : Bool :=
  kernelOffsets.any fun dy =>
    kernelOffsets.any fun dx =>
      decide (0 ≤ x + dx) && decide (x + dx < cw) &&
        decide (0 ≤ y + dy) && decide (y + dy < ch) &&
        decide (getBrightness (img (x + dx) (y + dy)) < 200)

/-- The content-restricted bounding-box scan of the source, starting from
the swapped raw bounds `(maxX, minX, maxY, minY)`. -/
def contentBBox (img : Img) (cw ch : ℤ) (pts : List (ℤ × ℤ)) (b0 : BBox) :
    BBox :=
  pts.foldl
    (fun b p => if hasContentAt img cw ch p.1 p.2 then bboxStep b p else b) b0

/-- The swapped initial box `(maxX, minX, maxY, minY)` of the content scan. -/
def contentStart (b : BBox) : BBox := ⟨b.maxX, b.minX, b.maxY, b.minY⟩

/-- The refined bounds of the source: the content-restricted box when
`contentMinX ≤ contentMaxX && contentMinY ≤ contentMaxY`, the raw box
otherwise. -/
def contentRefine (img : Img) (cw ch : ℤ) (pts : List (ℤ × ℤ)) : BBox :=
  if (contentBBox img cw ch pts (contentStart (rawBBox cw ch pts))).minX ≤
        (contentBBox img cw ch pts (contentStart (rawBBox cw ch pts))).maxX ∧
      (contentBBox img cw ch pts (contentStart (rawBBox cw ch pts))).minY ≤
        (contentBBox img cw ch pts (contentStart (rawBBox cw ch pts))).maxY
  then contentBBox img cw ch pts (contentStart (rawBBox cw ch pts))
  else rawBBox cw ch pts

/-- Specification-side bounding box of a point list, written as the claim
describes it: the componentwise min/max over the list (dummy box for the
empty list). -/
def bboxOf : List (ℤ × ℤ) → BBox
  | [] => ⟨0, 0, 0, 0⟩
  | p :: r => r.foldl bboxStep ⟨p.1, p.1, p.2, p.2⟩

lemma mem_kernelOffsets {d : ℤ} : d ∈ kernelOffsets ↔ -1 ≤ d ∧ d ≤ 1 := by
  unfold kernelOffsets
  constructor
  · intro hd
    fin_cases hd <;> norm_num
  · rintro ⟨h1, h2⟩
    interval_cases d <;> simp

lemma bboxStep_le (b : BBox) (p : ℤ × ℤ) :
    (bboxStep b p).minX ≤ b.minX ∧ b.maxX ≤ (bboxStep b p).maxX ∧
      (bboxStep b p).minY ≤ b.minY ∧ b.maxY ≤ (bboxStep b p).maxY ∧
      (bboxStep b p).minX ≤ p.1 ∧ p.1 ≤ (bboxStep b p).maxX ∧
      (bboxStep b p).minY ≤ p.2 ∧ p.2 ≤ (bboxStep b p).maxY := by
  unfold bboxStep
  dsimp only
  refine ⟨?_, ?_, ?_, ?_, ?_, ?_, ?_, ?_⟩ <;> omega

lemma foldl_bboxStep_mono :
    ∀ (l : List (ℤ × ℤ)) (b : BBox),
      (l.foldl bboxStep b).minX ≤ b.minX ∧ b.maxX ≤ (l.foldl bboxStep b).maxX ∧
        (l.foldl bboxStep b).minY ≤ b.minY ∧
        b.maxY ≤ (l.foldl bboxStep b).maxY := by
  intro l
  induction l with
  | nil => intro b; exact ⟨le_refl _, le_refl _, le_refl _, le_refl _⟩
  | cons q T ih =>
    intro b
    rw [List.foldl_cons]
    obtain ⟨i1, i2, i3, i4⟩ := ih (bboxStep b q)
    obtain ⟨s1, s2, s3, s4, -, -, -, -⟩ := bboxStep_le b q
    exact ⟨le_trans i1 s1, le_trans s2 i2, le_trans i3 s3, le_trans s4 i4⟩

lemma foldl_bboxStep_mem :
    ∀ (l : List (ℤ × ℤ)) (b : BBox) (p : ℤ × ℤ), p ∈ l →
      (l.foldl bboxStep b).minX ≤ p.1 ∧ p.1 ≤ (l.foldl bboxStep b).maxX ∧
        (l.foldl bboxStep b).minY ≤ p.2 ∧
        p.2 ≤ (l.foldl bboxStep b).maxY := by
  intro l
  induction l with
  | nil => intro b p hp; cases hp
  | cons q T ih =>
    intro b p hp
    rw [List.foldl_cons]
    rcases List.mem_cons.1 hp with rfl | hp2
    · obtain ⟨i1, i2, i3, i4⟩ := foldl_bboxStep_mono T (bboxStep b p)
      obtain ⟨-, -, -, -, s5, s6, s7, s8⟩ := bboxStep_le b p
      exact ⟨le_trans i1 s5, le_trans s6 i2, le_trans i3 s7, le_trans s8 i4⟩
    · exact ih (bboxStep b q) p hp2

lemma bboxOf_le {l : List (ℤ × ℤ)} (hne : l ≠ []) :
    (bboxOf l).minX ≤ (bboxOf l).maxX ∧ (bboxOf l).minY ≤ (bboxOf l).maxY := by
  match l, hne with
  | p :: r, _ =>
    unfold bboxOf
    obtain ⟨i1, i2, i3, i4⟩ := foldl_bboxStep_mono r ⟨p.1, p.1, p.2, p.2⟩
    exact ⟨le_trans i1 i2, le_trans i3 i4⟩

lemma bboxOf_mem {l : List (ℤ × ℤ)} {p : ℤ × ℤ} (hp : p ∈ l) :
    (bboxOf l).minX ≤ p.1 ∧ p.1 ≤ (bboxOf l).maxX ∧
      (bboxOf l).minY ≤ p.2 ∧ p.2 ≤ (bboxOf l).maxY := by
  match l, hp with
  | q :: r, hp =>
    unfold bboxOf
    rcases List.mem_cons.1 hp with rfl | hp2
    · obtain ⟨i1, i2, i3, i4⟩ := foldl_bboxStep_mono r ⟨p.1, p.1, p.2, p.2⟩
      exact ⟨i1, i2, i3, i4⟩
    · exact foldl_bboxStep_mem r _ p hp2

lemma rawBBox_eq_bboxOf {cw ch : ℤ} {pts : List (ℤ × ℤ)} (hne : pts ≠ [])
    (hin : ∀ p ∈ pts, 0 ≤ p.1 ∧ p.1 < cw ∧ 0 ≤ p.2 ∧ p.2 < ch) :
    rawBBox cw ch pts = bboxOf pts := by
  match pts, hne with
  | p :: r, _ =>
    unfold rawBBox bboxOf
    rw [List.foldl_cons]
    obtain ⟨h1, h2, h3, h4⟩ := hin p (List.mem_cons_self _ _)
    rw [show bboxStep ⟨cw, 0, ch, 0⟩ p = ⟨p.1, p.1, p.2, p.2⟩ by
      unfold bboxStep
      rw [min_eq_right (le_of_lt h2), max_eq_right h1,
        min_eq_right (le_of_lt h4), max_eq_right h3]]

lemma contentBBox_eq_filter (img : Img) (cw ch : ℤ) (pts : List (ℤ × ℤ))
    (b0 : BBox) :
    contentBBox img cw ch pts b0
      = (pts.filter fun p => hasContentAt img cw ch p.1 p.2).foldl bboxStep
          b0 := by
  unfold contentBBox
  induction pts generalizing b0 with
  | nil => rfl
  | cons q T ih =>
    rw [List.foldl_cons, List.filter_cons]
    by_cases hq : hasContentAt img cw ch q.1 q.2
    · rw [if_pos hq]
      simp only [hq, ite_true, List.foldl_cons]
      exact ih (bboxStep b0 q)
    · rw [if_neg hq]
      simp only [hq, ite_false, Bool.false_eq_true]
      exact ih b0

/-- Claim C5: a region point is marked as having content iff some in-bounds
pixel of its 3×3 neighborhood has brightness below 200; and the refined
bounds equal the bounding box of the content-bearing points when there are
any, and the raw region bounding box otherwise. -/
theorem contentRefine_spec (img : Img) (cw ch : ℤ) (pts : List (ℤ × ℤ))
    (hne : pts ≠ [])
    (hin : ∀ p ∈ pts, 0 ≤ p.1 ∧ p.1 < cw ∧ 0 ≤ p.2 ∧ p.2 < ch) :
    (∀ x y : ℤ, hasContentAt img cw ch x y = true ↔
        ∃ dx dy : ℤ, -1 ≤ dx ∧ dx ≤ 1 ∧ -1 ≤ dy ∧ dy ≤ 1 ∧
          0 ≤ x + dx ∧ x + dx < cw ∧ 0 ≤ y + dy ∧ y + dy < ch ∧
          getBrightness (img (x + dx) (y + dy)) < 200) ∧
      contentRefine img cw ch pts
        = (if pts.filter (fun p => hasContentAt img cw ch p.1 p.2) = []
           then bboxOf pts
           else bboxOf (pts.filter fun p => hasContentAt img cw ch p.1 p.2)) := by
  constructor
  · intro x y
    unfold hasContentAt
    simp only [List.any_eq_true, Bool.and_eq_true, decide_eq_true_eq]
    constructor
    · rintro ⟨dy, hdy, dx, hdx, ⟨⟨⟨⟨c1, c2⟩, c3⟩, c4⟩, c5⟩⟩
      obtain ⟨d1, d2⟩ := mem_kernelOffsets.1 hdx
      obtain ⟨d3, d4⟩ := mem_kernelOffsets.1 hdy
      exact ⟨dx, dy, d1, d2, d3, d4, c1, c2, c3, c4, c5⟩
    · rintro ⟨dx, dy, d1, d2, d3, d4, c1, c2, c3, c4, c5⟩
      exact ⟨dy, mem_kernelOffsets.2 ⟨d3, d4⟩, dx, mem_kernelOffsets.2 ⟨d1, d2⟩,
        ⟨⟨⟨⟨c1, c2⟩, c3⟩, c4⟩, c5⟩⟩
  · have hraw := rawBBox_eq_bboxOf hne hin
    have hrawle := bboxOf_le hne
    unfold contentRefine
    rw [contentBBox_eq_filter, hraw]
    by_cases hfilt : pts.filter (fun p => hasContentAt img cw ch p.1 p.2) = []
    · rw [hfilt, if_pos rfl]
      simp only [List.foldl_nil]
      unfold contentStart
      by_cases hcond : (bboxOf pts).maxX ≤ (bboxOf pts).minX ∧
          (bboxOf pts).maxY ≤ (bboxOf pts).minY
      · rw [if_pos hcond]
        have e1 : (bboxOf pts).minX = (bboxOf pts).maxX :=
          le_antisymm hrawle.1 hcond.1
        have e2 : (bboxOf pts).minY = (bboxOf pts).maxY :=
          le_antisymm hrawle.2 hcond.2
        cases hb : bboxOf pts
        rw [hb] at e1 e2
        simp only at e1 e2
        rw [e1, e2]
      · rw [if_neg hcond]
    · rw [if_neg hfilt]
      obtain ⟨q, r, hfe⟩ : ∃ q r,
          pts.filter (fun p => hasContentAt img cw ch p.1 p.2) = q :: r := by
        cases hfl : pts.filter (fun p => hasContentAt img cw ch p.1 p.2) with
        | nil => exact absurd hfl hfilt
        | cons q r => exact ⟨q, r, rfl⟩
      rw [hfe]
      have hqf : q ∈ pts.filter (fun p => hasContentAt img cw ch p.1 p.2) := by
        rw [hfe]
        exact List.mem_cons_self _ _
      have hq : q ∈ pts := List.mem_of_mem_filter hqf
      obtain ⟨b1, b2, b3, b4⟩ := bboxOf_mem hq
      have hstep : bboxStep (contentStart (bboxOf pts)) q
          = ⟨q.1, q.1, q.2, q.2⟩ := by
        unfold bboxStep contentStart
        rw [min_eq_right b2, max_eq_right b1, min_eq_right b4,
          max_eq_right b3]
      have hfold : (q :: r).foldl bboxStep (contentStart (bboxOf pts))
          = bboxOf (q :: r) := by
        rw [List.foldl_cons, hstep]
        rfl
      rw [hfold]
      rw [if_pos (bboxOf_le (List.cons_ne_nil q r))]

/-- A 2×1 image with a dark pixel at (0,0) and white paper at (1,0), for
the claim-C5 witness. -/
def dotDarkImg : Img := fun x y => if x = 0 ∧ y = 0 then packGray 0 else packGray 255

/-- Witness for claim C5 at a concrete input: on a 2×1 image with one dark
pixel both region points see content in their 3×3 neighborhoods, and the
refined bounds equal the content-restricted bounding box. -/
theorem contentRefine_spec_witness :
    contentRefine dotDarkImg 2 1 [(0, 0), (1, 0)]
      = (if ([(0, 0), (1, 0)] : List (ℤ × ℤ)).filter
            (fun p => hasContentAt dotDarkImg 2 1 p.1 p.2) = []
         then bboxOf [(0, 0), (1, 0)]
         else bboxOf (([(0, 0), (1, 0)] : List (ℤ × ℤ)).filter
            fun p => hasContentAt dotDarkImg 2 1 p.1 p.2)) :=
  (contentRefine_spec dotDarkImg 2 1 [(0, 0), (1, 0)] (by decide) (by decide)).2

/-! ### The border-removal pipeline `detectWhiteReceiptArea`
(claims C3, C4, C10)

The pipeline stages modelled here are the ones the claims are about: build
the white mask, find the largest connected white region (fatal error when
it is empty), estimate the rotation, optionally rotate (the external
`image.rotate` of the imagescript library is a parameter) and re-segment,
refine the content bounds, and build the padded crop box in
current-image coordinates.  The actual cropping, the optional post-filters
(modelled separately above) and the JPEG encoding consume this result and
do not affect it. -/

/-- Crop rectangle `(left, top, right, bottom)` of the source. -/
structure CropBox where
  left : ℤ
  top : ℤ
  right : ℤ
  bottom : ℤ

/-- The padded, clamped crop box of the source (`PADDING = 5`):
`cropLeft = max(0, minX − 5)`, `cropTop = max(0, minY − 5)`,
`cropRight = min(currentWidth − 1, maxX + 5)`,
`cropBottom = min(currentHeight − 1, maxY + 5)`. -/
def cropBoxOf (b : BBox) (cw ch : ℤ) : CropBox :=
  ⟨max 0 (b.minX - 5), max 0 (b.minY - 5),
    min (cw - 1) (b.maxX + 5), min (ch - 1) (b.maxY + 5)⟩

/-- The result record of the pipeline (the fields of the source's return
value that the verified claims are about). -/
structure DetectionResult where
  currentWidth : ℤ
  currentHeight : ℤ
  crop : CropBox
  rotation : RotationResult

/-- The acceptance test of the source:
`confidence >= MIN_CONFIDENCE && |angle| >= MIN_ANGLE` with
`MIN_CONFIDENCE = 0.02` and `MIN_ANGLE = 2`. -/
def rotationAccepted (r : RotationResult) : Prop :=
  (0.02 : ℝ) ≤ r.confidence ∧ 2 ≤ |r.angle|

open Classical in
/-- The image, dimensions and region points used from the bounds stage on:
when the rotation is accepted the image is rotated (external library
`image.rotate`, passed as `rot`, returning the new image and its expanded
dimensions) and the white region is recomputed on the rotated image — whose
mask the source builds reading `getPixelAt` directly; otherwise the
original triple and region are kept. -/
noncomputable def currentStage (img : Img) (w h : ℤ)
    (rot : ℤ → Img × ℤ × ℤ) (r : RotationResult) :
    Img × ℤ × ℤ × List (ℤ × ℤ) :=
  if rotationAccepted r then
    ((rot r.angle).1, (rot r.angle).2.1, (rot r.angle).2.2,
      (scanComponents (fun x y => isWhiteish ((rot r.angle).1 x y))
        (rot r.angle).2.1 (rot r.angle).2.2).best)
  else (img, w, h, largestWhiteRegion img w h)

/-- Bounds refinement and crop-box construction on the current image
generation. -/
noncomputable def boundsStage (st : Img × ℤ × ℤ × List (ℤ × ℤ))
    (r : RotationResult) : DetectionResult :=
  { currentWidth := st.2.1
    currentHeight := st.2.2.1
    crop := cropBoxOf (contentRefine st.1 st.2.1 st.2.2.1 st.2.2.2)
      st.2.1 st.2.2.1
    rotation := r }

/-- `detectWhiteReceiptArea` of the source, up to the crop-box stage. -/
noncomputable def detectWhiteReceiptArea (img : Img) (w h : ℤ)
    (rot : ℤ → Img × ℤ × ℤ) : Except String DetectionResult :=
  if largestWhiteRegion img w h = [] then
    Except.error "No significant white area found!"
  else
    Except.ok (boundsStage
      (currentStage img w h rot
        (detectRotationAngle img (largestWhiteRegion img w h) w h))
      (detectRotationAngle img (largestWhiteRegion img w h) w h))

/-- Claim C3: when no pixel of the input satisfies `isWhiteish`, the
pipeline aborts with the fatal "No significant white area found!" error
and produces no crop. -/
theorem detectWhiteReceiptArea_all_dark (img : Img) (w h : ℤ)
    (rot : ℤ → Img × ℤ × ℤ)
    (hdark : ∀ x y : ℤ, 0 ≤ x → x < w → 0 ≤ y → y < h →
      isWhiteish (img x y) = false) :
    detectWhiteReceiptArea img w h rot
      = Except.error "No significant white area found!" := by
  have hmask : ∀ p ∈ seedList w h, ¬ whiteMask img w h p.1 p.2 := by
    intro p hp
    obtain ⟨⟨h1, h2, -⟩, h3, h4, -⟩ := mem_seedList.1 hp
    unfold whiteMask safeGetPixel
    rw [if_neg (by omega), hdark p.1 p.2 h1 h2 h3 h4]
    simp
  have hscan := scanComponents_of_no_mask hmask
  unfold detectWhiteReceiptArea largestWhiteRegion
  rw [hscan]
  rfl

/-- `isWhiteish` on a gray pixel: the color variation is 0, so whiteness is
exactly brightness above 120. -/
lemma isWhiteish_packGray {v : ℕ} (hv : v < 256) :
    isWhiteish (packGray v) = decide ((120 : ℚ) < v) := by
  unfold isWhiteish packGray getBrightness
  rw [getR_packRGBA hv hv hv (by norm_num), getG_packRGBA hv hv hv (by norm_num),
    getB_packRGBA hv hv hv (by norm_num)]
  have h1 : ((v + v + v : ℕ) : ℚ) / 3 = (v : ℚ) := by push_cast; ring
  rw [h1]
  simp

lemma isWhiteish_zero : isWhiteish 0 = false := by
  unfold isWhiteish getBrightness getR getG getB
  norm_num

/-- An all-black 2×2 image for the claim-C3 witness. -/
def blackImg : Img := fun _ _ => packGray 0

lemma isWhiteish_blackPixel : isWhiteish (packGray 0) = false := by
  rw [isWhiteish_packGray (by norm_num)]
  norm_num

/-- Witness for claim C3: the all-black 2×2 image aborts with the fatal
error. -/
theorem detectWhiteReceiptArea_all_dark_witness :
    detectWhiteReceiptArea blackImg 2 2 (fun _ => (blackImg, 2, 2))
      = Except.error "No significant white area found!" :=
  detectWhiteReceiptArea_all_dark blackImg 2 2 _
    fun _ _ _ _ _ _ => isWhiteish_blackPixel

/-- A 2×2 image whose only whitish pixel sits at (1,1) — off the
every-5th-pixel seed grid, whose only seed in a 2×2 image is (0,0). -/
def dotWhiteImg : Img := fun x y => if x = 1 ∧ y = 1 then packGray 255 else packGray 0

/-- The white mask of `dotWhiteImg` is true exactly at (1,1); stated with
an integer-only right-hand side so the component scan can be evaluated by
kernel reduction. -/
lemma whiteMask_dotWhiteImg :
    whiteMask dotWhiteImg 2 2 = fun x y => decide (x = 1 ∧ y = 1) := by
  funext x y
  unfold whiteMask safeGetPixel dotWhiteImg
  by_cases hout : x < 0 ∨ 2 ≤ x ∨ y < 0 ∨ 2 ≤ y
  · rw [if_pos hout, isWhiteish_zero, eq_comm, decide_eq_false_iff_not]
    rintro ⟨rfl, rfl⟩
    omega
  · rw [if_neg hout]
    by_cases hxy : x = 1 ∧ y = 1
    · rw [if_pos hxy, isWhiteish_packGray (by norm_num), decide_eq_true hxy]
      norm_num
    · rw [if_neg hxy, isWhiteish_blackPixel, eq_comm, decide_eq_false_iff_not]
      exact hxy

/-- Claim C10: an image can contain a pixel satisfying `isWhiteish` and
still make the pipeline throw the fatal "No significant white area found!"
error: flood fill is seeded only at coordinates that are multiples of 5,
so a whitish component touching no grid point is never discovered. -/
theorem detectWhiteReceiptArea_missed_seed :
    isWhiteish (dotWhiteImg 1 1) = true ∧
      detectWhiteReceiptArea dotWhiteImg 2 2 (fun _ => (dotWhiteImg, 2, 2))
        = Except.error "No significant white area found!" := by
  constructor
  · rw [show dotWhiteImg 1 1 = packGray 255 from rfl,
      isWhiteish_packGray (by norm_num)]
    norm_num
  · have hempty : largestWhiteRegion dotWhiteImg 2 2 = [] := by
      unfold largestWhiteRegion
      rw [whiteMask_dotWhiteImg]
      decide
    unfold detectWhiteReceiptArea
    rw [if_pos hempty]

/-- Every point of the largest region produced by the scan lies inside
the grid. -/
lemma scan_best_bounds (mask : Mask) (w h : ℤ) :
    ∀ p ∈ (scanComponents mask w h).best,
      0 ≤ p.1 ∧ p.1 < w ∧ 0 ≤ p.2 ∧ p.2 < h := by
  unfold scanComponents
  refine foldl_invariant _ (fun s : ScanState =>
    ∀ p ∈ s.best, 0 ≤ p.1 ∧ p.1 < w ∧ 0 ≤ p.2 ∧ p.2 < h) _ _ ?_ ?_
  · intro s q hq hs
    unfold scanStep
    split
    · intro p hp
      dsimp only at hp
      split at hp
      · obtain ⟨a1, a2, a3, a4, -⟩ := floodFill_points p hp
        exact ⟨a1, a2, a3, a4⟩
      · exact hs p hp
    · exact hs
  · intro p hp
    cases hp

lemma contentRefine_nil (img : Img) (cw ch : ℤ) (hcw : 0 ≤ cw)
    (hch : 0 ≤ ch) : contentRefine img cw ch [] = ⟨0, cw, 0, ch⟩ := by
  unfold contentRefine contentBBox rawBBox contentStart
  simp only [List.foldl_nil]
  rw [if_pos ⟨by simpa using hcw, by simpa using hch⟩]

lemma bboxOf_inbounds {cw ch : ℤ} {l : List (ℤ × ℤ)} (hne : l ≠ [])
    (hin : ∀ p ∈ l, 0 ≤ p.1 ∧ p.1 < cw ∧ 0 ≤ p.2 ∧ p.2 < ch) :
    0 ≤ (bboxOf l).minX ∧ (bboxOf l).maxX ≤ cw - 1 ∧
      0 ≤ (bboxOf l).minY ∧ (bboxOf l).maxY ≤ ch - 1 := by
  match l, hne with
  | p :: r, _ =>
    unfold bboxOf
    refine foldl_invariant bboxStep (fun b : BBox =>
      0 ≤ b.minX ∧ b.maxX ≤ cw - 1 ∧ 0 ≤ b.minY ∧ b.maxY ≤ ch - 1) r _ ?_ ?_
    · intro b q hq hb
      obtain ⟨h1, h2, h3, h4⟩ := hin q (List.mem_cons_of_mem _ hq)
      obtain ⟨b1, b2, b3, b4⟩ := hb
      unfold bboxStep
      refine ⟨?_, ?_, ?_, ?_⟩ <;> dsimp only <;> omega
    · obtain ⟨h1, h2, h3, h4⟩ := hin p (List.mem_cons_self _ _)
      refine ⟨h1, ?_, h3, ?_⟩ <;> dsimp only <;> omega

/-- For any region point list whose points lie inside the current image,
the refined-and-padded crop box is well-formed and contained in the
current image. -/
lemma refine_crop_ok (img2 : Img) (cw ch : ℤ) (pts : List (ℤ × ℤ))
    (hcw : 1 ≤ cw) (hch : 1 ≤ ch)
    (hin : ∀ p ∈ pts, 0 ≤ p.1 ∧ p.1 < cw ∧ 0 ≤ p.2 ∧ p.2 < ch) :
    0 ≤ (cropBoxOf (contentRefine img2 cw ch pts) cw ch).left ∧
      (cropBoxOf (contentRefine img2 cw ch pts) cw ch).left ≤
        (cropBoxOf (contentRefine img2 cw ch pts) cw ch).right ∧
      (cropBoxOf (contentRefine img2 cw ch pts) cw ch).right < cw ∧
      0 ≤ (cropBoxOf (contentRefine img2 cw ch pts) cw ch).top ∧
      (cropBoxOf (contentRefine img2 cw ch pts) cw ch).top ≤
        (cropBoxOf (contentRefine img2 cw ch pts) cw ch).bottom ∧
      (cropBoxOf (contentRefine img2 cw ch pts) cw ch).bottom < ch := by
  by_cases hne : pts = []
  · subst hne
    rw [contentRefine_nil img2 cw ch (by omega) (by omega)]
    unfold cropBoxOf
    refine ⟨?_, ?_, ?_, ?_, ?_, ?_⟩ <;> dsimp only <;> omega
  · rw [(contentRefine_spec img2 cw ch pts hne hin).2]
    by_cases hf : pts.filter (fun p => hasContentAt img2 cw ch p.1 p.2) = []
    · rw [if_pos hf]
      obtain ⟨c1, c2, c3, c4⟩ := bboxOf_inbounds hne hin
      obtain ⟨d1, d2⟩ := bboxOf_le hne
      unfold cropBoxOf
      refine ⟨?_, ?_, ?_, ?_, ?_, ?_⟩ <;> dsimp only <;> omega
    · rw [if_neg hf]
      have hinf : ∀ p ∈ pts.filter (fun p => hasContentAt img2 cw ch p.1 p.2),
          0 ≤ p.1 ∧ p.1 < cw ∧ 0 ≤ p.2 ∧ p.2 < ch :=
        fun p hp => hin p (List.mem_of_mem_filter hp)
      obtain ⟨c1, c2, c3, c4⟩ := bboxOf_inbounds hf hinf
      obtain ⟨d1, d2⟩ := bboxOf_le hf
      unfold cropBoxOf
      refine ⟨?_, ?_, ?_, ?_, ?_, ?_⟩ <;> dsimp only <;> omega

/-- Claim C4: every run of the pipeline that reaches the cropping stage
produces a crop box with `0 ≤ left ≤ right < currentWidth` and
`0 ≤ top ≤ bottom < currentHeight`, in the coordinates of the current
(post-rotation when rotation occurred) image generation.  The external
`image.rotate` is assumed to return an image with positive dimensions. -/
theorem detectWhiteReceiptArea_crop_contained (img : Img) (w h : ℤ)
    (rot : ℤ → Img × ℤ × ℤ)
    (hrot : ∀ a : ℤ, 1 ≤ (rot a).2.1 ∧ 1 ≤ (rot a).2.2)
    (res : DetectionResult)
    (hres : detectWhiteReceiptArea img w h rot = Except.ok res) :
    0 ≤ res.crop.left ∧ res.crop.left ≤ res.crop.right ∧
      res.crop.right < res.currentWidth ∧ 0 ≤ res.crop.top ∧
      res.crop.top ≤ res.crop.bottom ∧
      res.crop.bottom < res.currentHeight := by
  unfold detectWhiteReceiptArea at hres
  by_cases hempty : largestWhiteRegion img w h = []
  · rw [if_pos hempty] at hres
    cases hres
  · rw [if_neg hempty] at hres
    obtain rfl : res = _ := (Except.ok.inj hres).symm
    unfold currentStage boundsStage
    by_cases hacc : rotationAccepted
        (detectRotationAngle img (largestWhiteRegion img w h) w h)
    · rw [if_pos hacc]
      dsimp only
      exact refine_crop_ok _ _ _ _ (hrot _).1 (hrot _).2 (scan_best_bounds _ _ _)
    · rw [if_neg hacc]
      dsimp only
      obtain ⟨p, hp⟩ := List.exists_mem_of_ne_nil _ hempty
      have hpb : 0 ≤ p.1 ∧ p.1 < w ∧ 0 ≤ p.2 ∧ p.2 < h := by
        refine scan_best_bounds (whiteMask img w h) w h p ?_
        unfold largestWhiteRegion at hp
        exact hp
      refine refine_crop_ok _ _ _ _ (by omega) (by omega) ?_
      intro q hq
      refine scan_best_bounds (whiteMask img w h) w h q ?_
      unfold largestWhiteRegion at hq
      exact hq

/-- A constant rotated-image stub for the claim-C4 witness. -/
def rotStub : ℤ → Img × ℤ × ℤ := fun _ => (uniformImg, 1, 1)

lemma whiteMask_uniform_one :
    whiteMask uniformImg 1 1
      = fun x y => decide (0 ≤ x ∧ x < 1 ∧ 0 ≤ y ∧ y < 1) := by
  funext x y
  unfold whiteMask safeGetPixel uniformImg
  by_cases hout : x < 0 ∨ 1 ≤ x ∨ y < 0 ∨ 1 ≤ y
  · rw [if_pos hout, isWhiteish_zero, eq_comm, decide_eq_false_iff_not]
    omega
  · rw [if_neg hout, isWhiteish_packGray (by norm_num),
      decide_eq_true (show (120 : ℚ) < ((200 : ℕ) : ℚ) by norm_num)]
    rw [eq_comm, decide_eq_true_iff]
    omega

/-- Witness for claim C4: a concrete successful run of the pipeline (a 1×1
light-gray image, no rotation applied) whose crop box satisfies the
containment bounds. -/
theorem detectWhiteReceiptArea_crop_contained_witness :
    detectWhiteReceiptArea uniformImg 1 1 rotStub
        = Except.ok (boundsStage
          (currentStage uniformImg 1 1 rotStub
            (detectRotationAngle uniformImg
              (largestWhiteRegion uniformImg 1 1) 1 1))
          (detectRotationAngle uniformImg
            (largestWhiteRegion uniformImg 1 1) 1 1)) ∧
      0 ≤ (boundsStage
          (currentStage uniformImg 1 1 rotStub
            (detectRotationAngle uniformImg
              (largestWhiteRegion uniformImg 1 1) 1 1))
          (detectRotationAngle uniformImg
            (largestWhiteRegion uniformImg 1 1) 1 1)).crop.left := by
  have hne : largestWhiteRegion uniformImg 1 1 ≠ [] := by
    unfold largestWhiteRegion
    rw [whiteMask_uniform_one]
    decide
  have hres : detectWhiteReceiptArea uniformImg 1 1 rotStub
      = Except.ok (boundsStage
        (currentStage uniformImg 1 1 rotStub
          (detectRotationAngle uniformImg
            (largestWhiteRegion uniformImg 1 1) 1 1))
        (detectRotationAngle uniformImg
          (largestWhiteRegion uniformImg 1 1) 1 1)) := by
    unfold detectWhiteReceiptArea
    rw [if_neg hne]
  refine ⟨hres, ?_⟩
  exact (detectWhiteReceiptArea_crop_contained uniformImg 1 1 rotStub
    (fun a => ⟨le_refl 1, le_refl 1⟩) _ hres).1

/-! ### First-maximum selection of the component scan (claim C7) -/

/-- The `areaPoints.length > largestArea` update of the seed loop: keep the
new component only when it is strictly larger. -/
def pickLarger (b c : List (ℤ × ℤ)) : List (ℤ × ℤ) :=
  if b.length < c.length then c else b

/-- The running largest region over a list of components in scan order. -/
def bestOf (comps : List (List (ℤ × ℤ))) : List (ℤ × ℤ) :=
  comps.foldl pickLarger []

/-- The scan's retained region is the running strict maximum of the
components it flood-filled, in scan order. -/
lemma scan_best_eq_bestOf (mask : Mask) (w h : ℤ) :
    (scanComponents mask w h).best = bestOf (scanComponents mask w h).comps := by
  unfold scanComponents
  refine foldl_invariant _ (fun s : ScanState => s.best = bestOf s.comps) _ _
    ?_ rfl
  intro s q hq hs
  unfold scanStep
  split
  · dsimp only
    unfold bestOf
    rw [List.foldl_append, List.foldl_cons, List.foldl_nil]
    unfold bestOf at hs
    rw [← hs]
    rfl
  · exact hs

/-- Full specification of the strict-maximum fold with accumulator: either
no element beats the accumulator and it is returned, or the result is the
first element that reaches the overall maximum. -/
lemma foldl_pickLarger_spec :
    ∀ (L : List (List (ℤ × ℤ))) (cur : List (ℤ × ℤ)),
      (L.foldl pickLarger cur = cur ∧ ∀ c ∈ L, c.length ≤ cur.length) ∨
      (∃ i, ∃ hi : i < L.length,
        L.foldl pickLarger cur = L.get ⟨i, hi⟩ ∧
        cur.length < (L.foldl pickLarger cur).length ∧
        (∀ c ∈ L, c.length ≤ (L.foldl pickLarger cur).length) ∧
        (∀ j, ∀ hj : j < L.length, j < i →
          (L.get ⟨j, hj⟩).length < (L.foldl pickLarger cur).length)) := by
  intro L
  induction L with
  | nil => intro cur; exact Or.inl ⟨rfl, by simp⟩
  | cons c T ih =>
    intro cur
    rw [List.foldl_cons]
    by_cases hc : cur.length < c.length
    · rw [show pickLarger cur c = c from if_pos hc]
      rcases ih c with ⟨heq, hall⟩ | ⟨i, hi, heq, hlt, hall, hpre⟩
      · refine Or.inr ⟨0, by simp, ?_, ?_, ?_, ?_⟩
        · rw [heq]
          rfl
        · rw [heq]
          exact hc
        · intro d hd
          rw [heq]
          rcases List.mem_cons.1 hd with rfl | hd2
          · exact le_refl _
          · exact hall d hd2
        · intro j hj hj0
          omega
      · refine Or.inr ⟨i + 1, by simpa using hi, ?_, ?_, ?_, ?_⟩
        · rw [heq]
          rfl
        · exact lt_trans hc hlt
        · intro d hd
          rcases List.mem_cons.1 hd with rfl | hd2
          · exact le_of_lt hlt
          · exact hall d hd2
        · intro j hj hji
          match j with
          | 0 => exact hlt
          | j0 + 1 =>
            exact hpre j0 (by simpa using hj) (by omega)
    · rw [show pickLarger cur c = cur from if_neg hc]
      rcases ih cur with ⟨heq, hall⟩ | ⟨i, hi, heq, hlt, hall, hpre⟩
      · refine Or.inl ⟨heq, ?_⟩
        intro d hd
        rcases List.mem_cons.1 hd with rfl | hd2
        · exact not_lt.1 hc
        · exact hall d hd2
      · refine Or.inr ⟨i + 1, by simpa using hi, ?_, ?_, ?_, ?_⟩
        · rw [heq]
          rfl
        · exact hlt
        · intro d hd
          rcases List.mem_cons.1 hd with rfl | hd2
          · exact le_trans (not_lt.1 hc) (le_of_lt hlt)
          · exact hall d hd2
        · intro j hj hji
          match j with
          | 0 => exact lt_of_le_of_lt (not_lt.1 hc) hlt
          | j0 + 1 =>
            exact hpre j0 (by simpa using hj) (by omega)

/-- Claim C7: the component search returns the flood-filled component with
the maximum point count among those reached from the every-5th-pixel seed
grid; when no component exists the result is the empty region, and on
ties the component encountered first in top-to-bottom, left-to-right scan
order is retained (all earlier components are strictly smaller than the
returned one). -/
theorem scanComponents_first_max (mask : Mask) (w h : ℤ) :
    ((scanComponents mask w h).comps = [] →
        (scanComponents mask w h).best = []) ∧
      (∀ c ∈ (scanComponents mask w h).comps,
        c.length ≤ (scanComponents mask w h).best.length) ∧
      ((scanComponents mask w h).comps ≠ [] →
        ∃ i, ∃ hi : i < (scanComponents mask w h).comps.length,
          (scanComponents mask w h).best
              = (scanComponents mask w h).comps.get ⟨i, hi⟩ ∧
            ∀ j, ∀ hj : j < (scanComponents mask w h).comps.length, j < i →
              ((scanComponents mask w h).comps.get ⟨j, hj⟩).length <
                (scanComponents mask w h).best.length) := by
  have hbest : (scanComponents mask w h).best
      = List.foldl pickLarger [] (scanComponents mask w h).comps :=
    scan_best_eq_bestOf mask w h
  have hspec := foldl_pickLarger_spec (scanComponents mask w h).comps []
  rcases hspec with ⟨heq, hall⟩ | ⟨i, hi, heq, hlt, hall, hpre⟩
  · refine ⟨fun _ => by rw [hbest, heq], ?_, ?_⟩
    · intro c hc
      rw [hbest, heq]
      exact hall c hc
    · intro hne
      have hlen0 : 0 < (scanComponents mask w h).comps.length :=
        List.length_pos.2 hne
      refine ⟨0, hlen0, ?_, ?_⟩
      · rw [hbest, heq]
        have hmem := List.get_mem (scanComponents mask w h).comps 0 hlen0
        have h0 : ((scanComponents mask w h).comps.get ⟨0, hlen0⟩).length = 0 := by
          have := hall _ hmem
          simpa using this
        rw [List.length_eq_zero] at h0
        rw [h0]
      · intro j hj hj0
        omega
  · refine ⟨?_, ?_, ?_⟩
    · intro hcomps
      exact absurd (hcomps ▸ hi) (by simp)
    · intro c hc
      rw [hbest]
      exact hall c hc
    · intro hne
      refine ⟨i, hi, ?_, ?_⟩
      · rw [hbest]
        exact heq
      · intro j hj hji
        rw [hbest]
        exact hpre j hj hji

/-- A full 1×1 mask for the claim-C7 witness. -/
def oneMask : Mask := fun _ _ => true

/-- Witness for claim C7: on a full 1×1 mask the scan finds one component
and returns it as the (first) maximum. -/
theorem scanComponents_first_max_witness :
    (scanComponents oneMask 1 1).comps ≠ [] ∧
      (∃ i, ∃ hi : i < (scanComponents oneMask 1 1).comps.length,
        (scanComponents oneMask 1 1).best
            = (scanComponents oneMask 1 1).comps.get ⟨i, hi⟩ ∧
          ∀ j, ∀ hj : j < (scanComponents oneMask 1 1).comps.length, j < i →
            ((scanComponents oneMask 1 1).comps.get ⟨j, hj⟩).length <
              (scanComponents oneMask 1 1).best.length) := by
  have hne : (scanComponents oneMask 1 1).comps ≠ [] := by decide
  exact ⟨hne, (scanComponents_first_max oneMask 1 1).2.2 hne⟩

end ReadReceipt
